import Mathlib

/-!
Verification of the govuk-once/onward-journey tool-orchestration and
candidate-disambiguation engine against its natural-language specification.

The Python sources are shallowly embedded: strings are `String` or `List Char`,
floats are `ℚ`, dictionaries are structures, the Bedrock LLM is an oracle
function, and the `while True` orchestration loop is fuel-indexed.
-/

namespace OnwardJourney

/-! ## Character classes (Python `re` classes `\s`, `\w`, `\d`, over ASCII) -/

/-- Python `\s` (ASCII range): space, tab, newline, carriage return,
vertical tab, form feed. -/
def isSpaceChar (c : Char) : Bool :=
  c == ' ' || c == '\t' || c == '\n' || c == '\r' || c == '\x0b' || c == '\x0c'

/-- The character class `[\s-]` used as separator in the phone regexes. -/
def isSepChar (c : Char) : Bool :=
  isSpaceChar c || c == '-'

/-- Python `\w` (ASCII range): letters, digits, underscore.  Used for `\b`. -/
def isWordChar (c : Char) : Bool :=
  c.isAlphanum || c == '_'

/-- Whether `needle` is a leading segment of `l`. -/
def leadsWith : List Char → List Char → Bool
  | [], _ => true
  | _ :: _, [] => false
  | a :: as, b :: bs => a == b && leadsWith as bs

/-- Whether `needle` occurs contiguously somewhere in `l`
(Python's `needle in text` on strings). -/
def occursIn (needle : List Char) : List Char → Bool
  | [] => needle.isEmpty
  | c :: rest => leadsWith needle (c :: rest) || occursIn needle rest

/-! ## The phone-number regex of `helpers.extract_and_standardize_phone` and
`test.clean_phone_number_for_matrix`

Both sources use the same pattern
`\b(\d{3,4}[\s-]?\d{3}[\s-]?\d{3,4}|\d{4}[\s-]?\d{2}[\s-]?\d{2}[\s-]?\d{2})\b`
with `re.search`.  The embedding enumerates the backtracking alternatives of
this fixed pattern in Python's priority order (alternation left first,
quantifiers greedy) and scans positions left to right. -/

/-- Consume exactly `n` characters, all digits (`\d{n}`). -/
def takeExactDigits : Nat → List Char → Option (List Char × List Char)
  | 0, l => some ([], l)
  | _ + 1, [] => none
  | n + 1, c :: rest =>
    if c.isDigit then
      (takeExactDigits n rest).map (fun p => (c :: p.1, p.2))
    else
      none

/-- Backtracking alternatives of `[\s-]?`, greedy first. -/
def sepOptions : List Char → List (Option Char × List Char)
  | [] => [(none, [])]
  | c :: rest =>
    if isSepChar c then [(some c, rest), (none, c :: rest)] else [(none, c :: rest)]

/-- Backtracking alternatives of a digit-group quantifier: `sizes` lists the
repetition counts in greedy (descending) order, e.g. `[4, 3]` for `\d{3,4}`. -/
def digitOptions (sizes : List Nat) (l : List Char) : List (List Char × List Char) :=
  sizes.filterMap (fun n => takeExactDigits n l)

/-- Alternative 1 of the pattern: `\d{3,4}[\s-]?\d{3}[\s-]?\d{3,4}`.
Each element is (matched characters, remaining characters), in Python's
backtracking priority order. -/
def candA (l : List Char) : List (List Char × List Char) :=
  (digitOptions [4, 3] l).flatMap (fun p1 =>
    (sepOptions p1.2).flatMap (fun s1 =>
      (digitOptions [3] s1.2).flatMap (fun p2 =>
        (sepOptions p2.2).flatMap (fun s2 =>
          (digitOptions [4, 3] s2.2).map (fun p3 =>
            (p1.1 ++ s1.1.toList ++ p2.1 ++ s2.1.toList ++ p3.1, p3.2))))))

/-- Alternative 2 of the pattern: `\d{4}[\s-]?\d{2}[\s-]?\d{2}[\s-]?\d{2}`. -/
def candB (l : List Char) : List (List Char × List Char) :=
  (digitOptions [4] l).flatMap (fun p1 =>
    (sepOptions p1.2).flatMap (fun s1 =>
      (digitOptions [2] s1.2).flatMap (fun p2 =>
        (sepOptions p2.2).flatMap (fun s2 =>
          (digitOptions [2] s2.2).flatMap (fun p3 =>
            (sepOptions p3.2).flatMap (fun s3 =>
              (digitOptions [2] s3.2).map (fun p4 =>
                (p1.1 ++ s1.1.toList ++ p2.1 ++ s2.1.toList ++ p3.1 ++
                  s3.1.toList ++ p4.1, p4.2))))))))

/-- All group alternatives at one position, alternative 1 before alternative 2. -/
def phoneCandidates (l : List Char) : List (List Char × List Char) :=
  candA l ++ candB l

/-- The trailing `\b`: the group always ends in a digit (a word character), so
the boundary holds exactly when the remainder starts with a non-word character
or is empty. -/
def endBoundary : List Char → Bool
  | [] => true
  | c :: _ => !(isWordChar c)

/-- Try to match the full pattern at the current position: the first
backtracking alternative whose trailing `\b` holds. -/
def matchHere (l : List Char) : Option (List Char) :=
  ((phoneCandidates l).find? (fun m => endBoundary m.2)).map (fun m => m.1)

/-- `re.search` position scan.  The leading `\b` before a digit holds exactly
when the previous character (if any) is a non-word character. -/
def searchAux : Option Char → List Char → Option (List Char)
  | _, [] => none
  | prev, c :: rest =>
    let startOk := match prev with
      | none => true
      | some p => !(isWordChar p)
    match (if startOk then matchHere (c :: rest) else none) with
    | some m => some m
    | none => searchAux (some c) rest

/-- `re.search(combined_pattern, text)`, returning `group(1)` of the first
match if any. -/
def searchPhone (l : List Char) : Option (List Char) :=
  searchAux none l

/-- `extracted_num_cleaned[i:i+3] for i in range(0, len, 3)`. -/
def chunk3 : List Char → List (List Char)
  | [] => []
  | [a] => [[a]]
  | [a, b] => [[a, b]]
  | a :: b :: c :: rest => [a, b, c] :: chunk3 rest

/-- Python `str.strip()` over the ASCII whitespace class. -/
def stripChars (l : List Char) : List Char :=
  ((l.dropWhile isSpaceChar).reverse.dropWhile isSpaceChar).reverse

/-- `match.group(1).replace(' ', '').replace('-', '')`. -/
def removeSpaceHyphen (l : List Char) : List Char :=
  (l.filter (fun c => c != ' ')).filter (fun c => c != '-')

/-- The shared re-formatting step of both phone functions: `XXXX XXX X…` when
at least 10 characters remain after cleaning, else groups of three joined by
spaces and stripped. -/
def formatCleaned (cleaned : List Char) : List Char :=
  if 10 ≤ cleaned.length then
    cleaned.take 4 ++ [' '] ++ (cleaned.drop 4).take 3 ++ [' '] ++ cleaned.drop 7
  else
    stripChars (List.intercalate [' '] (chunk3 cleaned))

/-- `helpers.extract_and_standardize_phone` (src/app/helpers.py:15-41). -/
def extract_and_standardize_phone (text : List Char) : List Char :=
  match searchPhone text with
  | some g => formatCleaned (removeSpaceHyphen g)
  | none => "NOT_FOUND".toList

/-- `test.clean_phone_number_for_matrix` (src/app/test.py:12-44): identical to
`extract_and_standardize_phone` except for the sentinel, which has a space in
place of the underscore. -/
def clean_phone_number_for_matrix (text : List Char) : List Char :=
  match searchPhone text with
  | some g => formatCleaned (removeSpaceHyphen g)
  | none => "NOT FOUND".toList

/-! ## Candidate scoring (src/app/candidate_scorer.py)

`CandidateScorer` parses retrieved text chunks into records upstream; the
embedding takes the parsed records (and, for `get_top_candidates`, the
black-box cosine-similarity base scores) as inputs. -/

/-- `CandidateConfig` (src/app/candidate_scorer.py:10-17), floats as `ℚ`. -/
structure CandidateConfig where
  ambiguity_similarity_gap : ℚ := 5 / 100
  strong_candidate_threshold : ℚ := 35 / 100
  confident_score_threshold : ℚ := 55 / 100
  confident_margin_threshold : ℚ := 15 / 100
  weak_candidate_floor : ℚ := 25 / 100
  top_k : Nat := 3
deriving DecidableEq, Repr

/-- A record parsed from one chunk by `parse_chunk_to_record` (absent fields
are the empty string, as in the source). -/
structure Candidate where
  uid : String := ""
  service_name : String := ""
  department : String := ""
  phone_number : String := ""
  topic : String := ""
  user_type : String := ""
  tags : String := ""
  url : String := ""
  description : String := ""
deriving DecidableEq, Repr

/-- Helper of `alphaRuns`: `cur` is the current letter run, reversed. -/
def alphaRunsAux : List Char → List Char → List (List Char)
  | cur, [] => if cur.isEmpty then [] else [cur.reverse]
  | cur, c :: rest =>
    if c.isAlpha then
      alphaRunsAux (c :: cur) rest
    else if cur.isEmpty then
      alphaRunsAux [] rest
    else
      cur.reverse :: alphaRunsAux [] rest

/-- Maximal runs of ASCII letters, as `re.findall` of `[a-zA-Z]+` finds them;
a length filter turns this into `[a-zA-Z]{n,}`. -/
def alphaRuns (l : List Char) : List (List Char) :=
  alphaRunsAux [] l

/-- `re.split` on a character class over a character list: split at every
separator, keeping empty segments (so `re.split("[,]", ",") == ["", ""]`). -/
def splitChars (p : Char → Bool) : List Char → List (List Char)
  | [] => [[]]
  | c :: rest =>
    if p c then
      [] :: splitChars p rest
    else
      match splitChars p rest with
      | s :: ss => (c :: s) :: ss
      | [] => [[c]]

/-- Python `str.lower()` over ASCII, character by character. -/
def lowerChars (l : List Char) : List Char :=
  l.map Char.toLower

/-- The tag tokens of `_tag_description_bonus`: split on `[,/;|]`, keep the
non-blank ones, stripped and lowercased. -/
def tagTokens (tags : String) : List (List Char) :=
  ((splitChars (fun c => c == ',' || c == '/' || c == ';' || c == '|')
      tags.toList).filter
    (fun t => stripChars t ≠ [])).map (fun t => lowerChars (stripChars t))

/-- `CandidateScorer._tag_description_bonus`
(src/app/candidate_scorer.py:57-77): 0.02 per tag token found in the
lowercased query, 0.005 per distinct 4+-letter description word found in it,
capped at 0.05. -/
def tag_description_bonus (candidate : Candidate) (user_query : String) : ℚ :=
  let query_lower := lowerChars user_query.toList
  let tagHits := (tagTokens candidate.tags).countP
    (fun t => occursIn t query_lower)
  let descWords := ((alphaRuns (lowerChars candidate.description.toList)).filter
    (fun w => 4 ≤ w.length)).dedup
  let descHits := descWords.countP (fun w => occursIn w query_lower)
  min ((tagHits : ℚ) * (2 / 100) + (descHits : ℚ) * (5 / 1000)) (5 / 100)

/-- One entry of the list `get_top_candidates` builds: the parsed record with
its `score`, `base_score` and `bonus` entries; `idx` is the record's position
in the corpus (the `enumerate` index in the source), kept to express
tie-breaking by corpus order. -/
structure ScoredCandidate where
  idx : Nat
  record : Candidate
  base_score : ℚ
  bonus : ℚ
  score : ℚ
deriving DecidableEq, Repr

/-- Stable insertion into a descending-sorted list: `x` goes before the first
element not strictly greater than it (`gt y x = true` means `y` sorts strictly
before `x`). -/
def insertDescBy (gt : α → α → Bool) (x : α) : List α → List α
  | [] => [x]
  | y :: ys => if gt y x then y :: insertDescBy gt x ys else x :: y :: ys

/-- Stable descending sort, the behaviour of Python's
`sorted(..., reverse=True)` (a stable sort is extensionally unique). -/
def sortDescBy (gt : α → α → Bool) : List α → List α
  | [] => []
  | x :: xs => insertDescBy gt x (sortDescBy gt xs)

/-- The comparison of `sorted(all_candidates, key=lambda c: c["score"],
reverse=True)`. -/
def scoreGT (a b : ScoredCandidate) : Bool :=
  decide (b.score < a.score)

/-- `top_n or self.config.top_k`: Python's `or` falls back on `None` and on
the falsy `0`. -/
def resolveTopN (cfg : CandidateConfig) : Option Nat → Nat
  | none => cfg.top_k
  | some n => if n = 0 then cfg.top_k else n

/-- `CandidateScorer.get_top_candidates` (src/app/candidate_scorer.py:79-102).
`corpus` pairs each chunk's cosine-similarity base score (the black-box
embedding step) with its parsed record. -/
def get_top_candidates (cfg : CandidateConfig) (user_query : String)
    (corpus : List (ℚ × Candidate)) (top_n : Option Nat) : List ScoredCandidate :=
  let all_candidates := corpus.enum.filterMap (fun p =>
    let bonus := tag_description_bonus p.2.2 user_query
    let score := p.2.1 + bonus
    if cfg.weak_candidate_floor ≤ score then
      some ⟨p.1, p.2.2, p.2.1, bonus, score⟩
    else
      none)
  let ranked := sortDescBy scoreGT all_candidates
  ranked.take (resolveTopN cfg top_n)

/-- The (service_name, department, user_type) triple of the
`distinct_services` set comprehension. -/
def serviceTriple (c : ScoredCandidate) : String × String × String :=
  (c.record.service_name, c.record.department, c.record.user_type)

/-- `CandidateScorer.needs_disambiguation`
(src/app/candidate_scorer.py:104-120). -/
def needs_disambiguation (cfg : CandidateConfig)
    (candidates : List ScoredCandidate) : Bool :=
  match candidates with
  | c0 :: c1 :: _ =>
    let strong_candidates := candidates.filter
      (fun c => cfg.strong_candidate_threshold ≤ c.score)
    let distinct_services := ((candidates.filter
      (fun c => c.record.service_name ≠ "")).map serviceTriple).toFinset
    decide (|c0.score - c1.score| ≤ cfg.ambiguity_similarity_gap) &&
      decide (2 ≤ strong_candidates.length) &&
      decide (1 < distinct_services.card)
  | _ => false

/-- The claim's reading of `needs_disambiguation`, for comparison with the
source: the top two scores differ by strictly less than the gap threshold and
the distinct (service_name, department, user_type) triples are counted over
the strong candidates only. -/
def needsDisambiguationClaim (cfg : CandidateConfig)
    (candidates : List ScoredCandidate) : Bool :=
  match candidates with
  | c0 :: c1 :: _ =>
    let strong_candidates := candidates.filter
      (fun c => cfg.strong_candidate_threshold ≤ c.score)
    decide (|c0.score - c1.score| < cfg.ambiguity_similarity_gap) &&
      decide (2 ≤ strong_candidates.length) &&
      decide (1 < (strong_candidates.map serviceTriple).toFinset.card)
  | _ => false

/-- The region keyword table of `_candidate_regions`
(src/app/candidate_scorer.py:152-172). -/
def regionTokens : List (String × List String) :=
  [("england", ["england", "english", "dfe", "uk"]),
   ("northern ireland", ["ni", "northern ireland"]),
   ("scotland", ["scotland", "scottish"]),
   ("wales", ["wales", "welsh"])]

/-- The lowercased join of service name, department, tags and description —
the `text` both of `_candidate_regions` and of
`select_candidate_from_clarification.overlap_score`. -/
def fieldsText (c : Candidate) : List Char :=
  lowerChars (c.service_name ++ " " ++ c.department ++ " " ++ c.tags ++ " " ++
    c.description).toList

/-- `CandidateScorer._candidate_regions`. -/
def candidate_regions (c : Candidate) : List String :=
  (regionTokens.filter (fun rt =>
    rt.2.any (fun tok => occursIn tok.toList (fieldsText c)))).map
    (fun rt => rt.1)

/-- The per-candidate region score of `select_candidate_from_clarification`:
2 per own region that the user's lowercased text mentions. -/
def regionScore (userLower : List Char) (c : ScoredCandidate) : Nat :=
  2 * ((candidate_regions c.record).filter
    (fun r => occursIn r.toList userLower)).length

/-- `max(range(len(l)), key=lambda i: l[i])`: the first index attaining the
maximum, with its value. -/
def firstArgmax : List Nat → Option (Nat × Nat)
  | [] => none
  | v :: vs =>
    match firstArgmax vs with
    | none => some (0, v)
    | some (i, w) => if v < w then some (i + 1, w) else some (0, v)

/-- `overlap_score` inside `select_candidate_from_clarification`: the number
of distinct 3+-letter words of the candidate's field text contained in the
user's lowercased text. -/
def overlap_score (userLower : List Char) (c : ScoredCandidate) : Nat :=
  (((alphaRuns (fieldsText c.record)).filter
    (fun w => 3 ≤ w.length)).dedup.filter
    (fun w => occursIn w userLower)).length

/-- The comparison of `sorted(..., key=lambda x: (x[0],
candidates[x[1]].get("score", 0.0)), reverse=True)`: lexicographic on
(overlap count, candidate score). -/
def overlapGT (a b : Nat × Nat × ScoredCandidate) : Bool :=
  decide (b.1 < a.1) || (a.1 == b.1 && decide (b.2.2.score < a.2.2.score))

/-- The word-overlap fallback of `select_candidate_from_clarification`
(the `scored = sorted(...)` / `top_score > 0` tail of the source): the stable
descending sort of `(overlap_score(c), idx, c)` triples by
(overlap, candidate score), returning the top candidate when its overlap is
positive and the top-ranked original candidate `c0` otherwise. -/
def selectByOverlap (userLower : List Char) (candidates : List ScoredCandidate)
    (c0 : ScoredCandidate) : Option ScoredCandidate :=
  match sortDescBy overlapGT (candidates.enum.map
    (fun p => (overlap_score userLower p.2, p.1, p.2))) with
  | top :: _ => if 0 < top.1 then some top.2.2 else some c0
  | [] => none

/-- `CandidateScorer.select_candidate_from_clarification`
(src/app/candidate_scorer.py:174-216). -/
def select_candidate_from_clarification (user_text : String)
    (candidates : List ScoredCandidate) : Option ScoredCandidate :=
  match candidates with
  | [] => none
  | c0 :: _ =>
    let userLower := lowerChars user_text.toList
    let region_scores := candidates.map (regionScore userLower)
    let best_region :=
      if region_scores.any (fun s => 0 < s) then firstArgmax region_scores
      else none
    match best_region with
    | some (i, _) =>
      if 0 < region_scores.getD i 0 then candidates.get? i
      else selectByOverlap userLower candidates c0
    | none => selectByOverlap userLower candidates c0

/-! ## Evaluation metric (src/app/metrics.py) -/

/-- One row of an evaluator result table, with the columns
`clarification_success_gain_metric` reads. -/
structure EvalRow where
  test_id : Nat
  is_ambiguous : Bool
  match_status : String
deriving DecidableEq, Repr

/-- The metrics dictionary built by `clarification_success_gain_metric`; the
empty dictionary is `none`. -/
structure GainMetrics where
  total_ambiguous_cases : Nat
  ts_clarity_accuracy : ℚ
  ts_initial_accuracy : ℚ
  clarification_success_gain_csg : ℚ
deriving DecidableEq, Repr

/-- `(column == 'PASS').mean()` over a table. -/
def passRate (rows : List EvalRow) : ℚ :=
  (rows.countP (fun r => r.match_status == "PASS") : ℚ) / rows.length

/-- Python `round(x, 4)` idealized over `ℚ` (float representation noise and
the half-even tie rule are immaterial to the claims checked here). -/
def round4 (q : ℚ) : ℚ :=
  (⌊q * 10000 + 1 / 2⌋ : ℚ) / 10000

/-- `COST_PENALTY_C` (src/app/metrics.py:18). -/
def costPenaltyC : ℚ := 0

/-- `clarification_success_gain_metric` (src/app/metrics.py:3-27).  The
source's `set_index('test_id')` re-indexes each filtered table but performs
no join; both pass rates are means over that table's own ambiguous rows. -/
def clarification_success_gain_metric (df_clarity df_forced : List EvalRow) :
    Option GainMetrics :=
  let df_clarity_amb := df_clarity.filter (fun r => r.is_ambiguous == true)
  let df_forced_amb := df_forced.filter (fun r => r.is_ambiguous == true)
  if df_clarity_amb.isEmpty || df_forced_amb.isEmpty then none
  else
    let ts_clarity := passRate df_clarity_amb
    let ts_initial := passRate df_forced_amb
    let csg := (ts_clarity - ts_initial) - costPenaltyC
    some ⟨df_clarity_amb.length, round4 ts_clarity, round4 ts_initial, round4 csg⟩

/-- The claim's reading of the metric, for comparison with the source: both
pass rates computed over the rows surviving an inner join on test id. -/
def csgOverJoinedRows (df_clarity df_forced : List EvalRow) : Option ℚ :=
  let df_clarity_amb := df_clarity.filter (fun r => r.is_ambiguous == true)
  let df_forced_amb := df_forced.filter (fun r => r.is_ambiguous == true)
  if df_clarity_amb.isEmpty || df_forced_amb.isEmpty then none
  else
    let joined_c := df_clarity_amb.filter
      (fun r => df_forced_amb.any (fun s => s.test_id == r.test_id))
    let joined_f := df_forced_amb.filter
      (fun r => df_clarity_amb.any (fun s => s.test_id == r.test_id))
    some (passRate joined_c - passRate joined_f)

/-! ## Conversation data model (src/app/agents.py, Bedrock message format) -/

/-- Tool arguments (a JSON object) abstracted as key-value pairs. -/
abbrev ToolArgs := List (String × String)

/-- One Bedrock content block: `{"type": "text"}`, `{"type": "tool_use"}`, or
`{"type": "tool_result"}`. -/
inductive ContentBlock where
  | text (s : String)
  | toolUse (id name : String) (input : ToolArgs)
  | toolResult (tool_use_id : String) (text : String)
deriving DecidableEq, Repr

/-- One history entry in Bedrock format. -/
structure Message where
  role : String
  content : List ContentBlock
deriving DecidableEq, Repr

/-- `OnwardJourneyAgent._add_to_history` (src/app/agents.py:155-172): the text
block is added only when `content` is truthy (Python drops `None` and the
empty string), and a message with no content blocks is not appended. -/
def addToHistory (hist : List Message) (role : String) (content : Option String)
    (tool_calls tool_results : List ContentBlock) : List Message :=
  let contentBlocks :=
    (match content with
     | some s => if s = "" then [] else [ContentBlock.text s]
     | none => []) ++ tool_calls ++ tool_results
  if contentBlocks = [] then hist else hist ++ [⟨role, contentBlocks⟩]

/-! ## Live-handoff tools (src/app/tools.py) -/

/-- JSON string escaping (quote and backslash; control characters do not occur
in the claims checked here). -/
def jsonEscape (s : String) : String :=
  ⟨s.toList.flatMap (fun c => if c == '"' || c == '\\' then ['\\', c] else [c])⟩

/-- A JSON string literal. -/
def jsonStr (s : String) : String :=
  "\"" ++ jsonEscape s ++ "\""

/-- A JSON object from already-rendered member values, `json.dumps` spacing. -/
def jsonObj (fields : List (String × String)) : String :=
  "\x7b" ++ String.intercalate ", " (fields.map (fun p => jsonStr p.1 ++ ": " ++ p.2)) ++ "\x7d"

/-- `l[-3:]`. -/
def lastN (n : Nat) (l : List String) : List String :=
  l.drop (l.length - n)

/-- `tools.initiate_live_handoff` (src/app/tools.py:96-119).  The environment
lookups (`deploymentId`, `region`) and the fresh `uuid` token arrive as
arguments; `triage_data` becomes the `customAttributes` object. -/
def initiate_live_handoff (reason deploymentId region token : String)
    (history : List Message) (triage_data : ToolArgs) : String :=
  let user_queries := history.flatMap (fun m =>
    if m.role == "user" then
      m.content.filterMap (fun b => match b with
        | .text t => some t
        | _ => none)
    else [])
  let summary := "User is asking about: " ++ reason ++ ". Context: " ++
    String.intercalate " | " (lastN 3 user_queries)
  "SIGNAL: initiate_live_handoff " ++ jsonObj
    [("action", jsonStr "initiate_live_handoff"),
     ("deploymentId", jsonStr deploymentId),
     ("region", jsonStr region),
     ("token", jsonStr token),
     ("reason", jsonStr reason),
     ("summary", jsonStr summary),
     ("customAttributes", jsonObj (triage_data.map (fun p => (p.1, jsonStr p.2))))]

/-- The `{extracted, missing, follow_up}` object of one triage extraction
call (spec §3 TriageReport); produced fresh on every gated attempt. -/
structure TriageReport where
  extracted : ToolArgs
  missing : List String
  follow_up : String
deriving DecidableEq, Repr

/-- Modelled from the spec: the Triage Gate (spec §4.4) is code of this
repository that is not under `src/` — `src/app/tools.py` holds only the raw
handoff tools the gate wraps.  Per the spec's words: the low-temperature
extraction call producing the TriageReport is the abstracted LLM input; "If
`missing` is non-empty: returns a synthetic tool-result string beginning with
a recognizable prefix (e.g., `HANDOFF_BLOCKED:`) listing missing fields and a
suggested follow-up"; "If `missing` is empty: injects `extracted` as a
`triage_data` argument and invokes the real handoff tool, returning its
signal string unchanged." -/
def triageGate (report : TriageReport) (reason deploymentId region token : String)
    (history : List Message) : String :=
  if report.missing.isEmpty then
    initiate_live_handoff reason deploymentId region token history report.extracted
  else
    "HANDOFF_BLOCKED: missing " ++ String.intercalate ", " report.missing ++
      ". " ++ report.follow_up

/-! ## The tool-orchestration loop
(`OnwardJourneyAgent._send_message_and_handle_tools`, src/app/agents.py:302-414)

The Bedrock model is an oracle giving the `content` list of the response to
the `n`-th `invoke_model` call of this loop; the `while True` loop is
fuel-indexed, `none` standing for "still looping after that many
iterations". -/

/-- The tool registry `self.available_tools`: name to callable. -/
abbrev ToolRegistry := List (String × (ToolArgs → String))

/-- `function_name in self.available_tools` / `self.available_tools[name]`. -/
def lookupTool (reg : ToolRegistry) (name : String) : Option (ToolArgs → String) :=
  (reg.find? (fun p => p.1 == name)).map (fun p => p.2)

/-- One entry of the tool-execution `for` loop (src/app/agents.py:373-406):
an available tool runs and its output becomes a `tool_result` block tied to
the request's `tool_use_id`; an unknown name yields the "not allowed"
`tool_result` instead of raising. -/
def execToolCall (reg : ToolRegistry) : ContentBlock → ContentBlock
  | .toolUse id name args =>
    match lookupTool reg name with
    | some f => .toolResult id (f args)
    | none => .toolResult id ("Tool '" ++ name ++ "' is not allowed.")
  | b => b

/-- The whole tool-execution `for` loop: results in request order. -/
def executeToolCalls (reg : ToolRegistry) (tool_calls : List ContentBlock) :
    List ContentBlock :=
  tool_calls.map (execToolCall reg)

/-- `[c for c in model_content if c.get('type') == 'tool_use']`. -/
def extractToolCalls (model_content : List ContentBlock) : List ContentBlock :=
  model_content.filter (fun b => match b with
    | .toolUse .. => true
    | _ => false)

/-- `next((c.get('text') for c in model_content if c.get('type') == 'text'),
None)`. -/
def extractText (model_content : List ContentBlock) : Option String :=
  model_content.findSome? (fun b => match b with
    | .text s => some s
    | _ => none)

/-- Python truthiness of an optional string. -/
def truthy : Option String → Bool
  | none => false
  | some s => s != ""

/-- What `_send_message_and_handle_tools` hands back: the returned text, the
final `self.history`, and the final `self.awaiting_clarification` flag. -/
structure LoopResult where
  text : String
  history : List Message
  awaiting : Bool
deriving Repr

/-- The `while True` loop body (src/app/agents.py:328-414).  `oracle n` is the
`content` of the model response to the `n`-th call; `fuel` bounds the
iterations observed, `none` meaning the loop is still running. -/
def toolLoop (reg : ToolRegistry) (oracle : Nat → List ContentBlock) :
    Nat → Nat → List Message → Bool → Option LoopResult
  | 0, _, _, _ => none
  | fuel + 1, iter, hist, awaiting =>
    let model_content := oracle iter
    let tool_calls := extractToolCalls model_content
    let text_content := extractText model_content
    let hist1 := addToHistory hist "assistant" text_content tool_calls []
    if tool_calls = [] ∧ truthy text_content = true ∧ awaiting = false then
      some ⟨text_content.getD "", hist1, true⟩
    else if tool_calls = [] then
      some ⟨if truthy text_content then text_content.getD ""
            else "I couldn't generate a response.", hist1, awaiting⟩
    else
      let results := executeToolCalls reg tool_calls
      let hist2 := addToHistory hist1 "user" none [] results
      toolLoop reg oracle fuel (iter + 1) hist2 awaiting

/-- `OnwardJourneyAgent._send_message_and_handle_tools`
(src/app/agents.py:302-414).  `fastAnswer` is the result of the
`_get_fast_answer` memory lookup (`none` when no memory store is configured);
the memory context only alters the system string inside the oracle. -/
def sendMessageAndHandleTools (reg : ToolRegistry)
    (oracle : Nat → List ContentBlock) (fastAnswer : Option String) (fuel : Nat)
    (prompt : String) (hist : List Message) (awaiting : Bool) :
    Option LoopResult :=
  if truthy fastAnswer then
    let h1 := addToHistory hist "user" (some prompt) [] []
    let h2 := addToHistory h1 "assistant" fastAnswer [] []
    some ⟨fastAnswer.getD "", h2, awaiting⟩
  else
    let h1 := addToHistory hist "user" (some prompt) [] []
    let awaiting1 := if awaiting then false else awaiting
    toolLoop reg oracle fuel 0 h1 awaiting1

/-! ## Concrete instances used by witnesses and counterexamples -/

/-- A model that answers every call with a tool call for the one registered
tool — the adversarial mock of spec §8 property 4. -/
def advOracle : Nat → List ContentBlock :=
  fun _ => [.toolUse "toolu_01" "query_csv_rag" [("user_query", "tax credits")]]

/-- A model whose every response is non-empty text with no tool calls. -/
def textOracle : Nat → List ContentBlock :=
  fun _ => [.text "The answer is 42."]

/-- A model whose first response asks for an unknown tool and then a known
one, and which afterwards answers in text. -/
def c10Oracle : Nat → List ContentBlock :=
  fun n =>
    if n = 0 then
      [.toolUse "a" "bad_tool" [], .toolUse "b" "query_csv_rag" [("user_query", "x")]]
    else
      [.text "done"]

/-- The `OnwardJourneyAgent` registry: `query_csv_rag` only, with an abstract
always-succeeding body. -/
def csvRegistry : ToolRegistry :=
  [("query_csv_rag", fun _ => "Retrieved Context:\n...")]

/-- Two ambiguous clarification-mode rows (test ids 1, 2). -/
def c5ExClarity : List EvalRow := [⟨1, true, "PASS"⟩, ⟨2, true, "FAIL"⟩]

/-- One ambiguous forced-mode row (test id 1 only): the inner join would keep
only test id 1 in both tables. -/
def c5ExForced : List EvalRow := [⟨1, true, "PASS"⟩]

/-- Spec §8 property 6: clarification mode passing 8 of the same 10 ambiguous
test ids. -/
def c5ScenarioClarity : List EvalRow :=
  [⟨1, true, "PASS"⟩, ⟨2, true, "PASS"⟩, ⟨3, true, "PASS"⟩, ⟨4, true, "PASS"⟩,
   ⟨5, true, "PASS"⟩, ⟨6, true, "PASS"⟩, ⟨7, true, "PASS"⟩, ⟨8, true, "PASS"⟩,
   ⟨9, true, "FAIL"⟩, ⟨10, true, "FAIL"⟩]

/-- Spec §8 property 6: forced mode passing 5 of the same 10 ambiguous test
ids. -/
def c5ScenarioForced : List EvalRow :=
  [⟨1, true, "PASS"⟩, ⟨2, true, "PASS"⟩, ⟨3, true, "PASS"⟩, ⟨4, true, "PASS"⟩,
   ⟨5, true, "PASS"⟩, ⟨6, true, "FAIL"⟩, ⟨7, true, "FAIL"⟩, ⟨8, true, "FAIL"⟩,
   ⟨9, true, "FAIL"⟩, ⟨10, true, "FAIL"⟩]

/-- Two equal-scoring strong candidates for the same service triple. -/
def c3Dup1 : ScoredCandidate :=
  ⟨0, { service_name := "Service A", department := "Dept D", user_type := "citizen" },
    40 / 100, 0, 40 / 100⟩

/-- A near-duplicate chunk of the same service: same triple, same score. -/
def c3Dup2 : ScoredCandidate :=
  ⟨1, { service_name := "Service A", department := "Dept D", user_type := "citizen" },
    40 / 100, 0, 40 / 100⟩

/-- A weak candidate for a different service triple. -/
def c3Weak : ScoredCandidate :=
  ⟨2, { service_name := "Service B", department := "Dept E", user_type := "business" },
    10 / 100, 0, 10 / 100⟩

/-- `{r with test_id := f r.test_id}`: re-indexing of a result row, used to
state that the metric never reads test ids. -/
def mapTestId (f : Nat → Nat) (r : EvalRow) : EvalRow :=
  { r with test_id := f r.test_id }

/-- The wire-format marker of a genuine handoff signal (spec §6). -/
def signalMarker : List Char := "SIGNAL: initiate_live_handoff".toList

/-- The blocked-handoff prefix of the Triage Gate (spec §4.4). -/
def blockedMarker : List Char := "HANDOFF_BLOCKED".toList

/-! ## Helper lemmas -/

theorem toList_append (s t : String) : (s ++ t).toList = s.toList ++ t.toList := by
  simp [String.toList]

theorem leadsWith_append (p l r : List Char) (h : leadsWith p l = true) :
    leadsWith p (l ++ r) = true := by
  induction p generalizing l with
  | nil => simp [leadsWith]
  | cons a as ih =>
    cases l with
    | nil => simp [leadsWith] at h
    | cons b bs =>
      simp only [leadsWith, Bool.and_eq_true] at h ⊢
      exact ⟨h.1, ih bs h.2⟩

theorem occursIn_append_right (n l r : List Char) (h : occursIn n r = true) :
    occursIn n (l ++ r) = true := by
  induction l with
  | nil => simpa using h
  | cons c cs ih =>
    simp only [List.cons_append, occursIn, Bool.or_eq_true]
    exact Or.inr ih

section SortLemmas

variable {α : Type _} (gt : α → α → Bool)

theorem mem_insertDescBy (x a : α) (l : List α) :
    a ∈ insertDescBy gt x l ↔ a = x ∨ a ∈ l := by
  induction l with
  | nil => simp [insertDescBy]
  | cons y ys ih =>
    simp only [insertDescBy]
    split
    · simp only [List.mem_cons, ih]
      tauto
    · simp only [List.mem_cons]

theorem length_insertDescBy (x : α) (l : List α) :
    (insertDescBy gt x l).length = l.length + 1 := by
  induction l with
  | nil => rfl
  | cons y ys ih =>
    simp only [insertDescBy]
    split <;> simp [ih]

theorem mem_sortDescBy (a : α) (l : List α) :
    a ∈ sortDescBy gt l ↔ a ∈ l := by
  induction l with
  | nil => simp [sortDescBy]
  | cons x xs ih =>
    simp [sortDescBy, mem_insertDescBy, ih]

theorem length_sortDescBy (l : List α) :
    (sortDescBy gt l).length = l.length := by
  induction l with
  | nil => rfl
  | cons x xs ih =>
    simp [sortDescBy, length_insertDescBy, ih]

theorem pairwise_insertDescBy
    (htrans : ∀ a b c, gt b a = false → gt c b = false → gt c a = false)
    (hasym : ∀ a b, gt a b = true → gt b a = false) (x : α) (l : List α)
    (h : l.Pairwise (fun a b => gt b a = false)) :
    (insertDescBy gt x l).Pairwise (fun a b => gt b a = false) := by
  induction l with
  | nil => simp [insertDescBy]
  | cons y ys ih =>
    rcases List.pairwise_cons.mp h with ⟨hy, hys⟩
    simp only [insertDescBy]
    by_cases hgt : gt y x = true
    · rw [if_pos hgt]
      refine List.pairwise_cons.mpr ⟨?_, ih hys⟩
      intro z hz
      rcases (mem_insertDescBy gt x z ys).mp hz with rfl | hz
      · exact hasym y z hgt
      · exact hy z hz
    · rw [if_neg hgt]
      have hgt' : gt y x = false := by
        cases hb : gt y x
        · rfl
        · exact absurd hb hgt
      refine List.pairwise_cons.mpr ⟨?_, h⟩
      intro z hz
      rcases List.mem_cons.mp hz with rfl | hz
      · exact hgt'
      · exact htrans x y z hgt' (hy z hz)

theorem pairwise_sortDescBy
    (htrans : ∀ a b c, gt b a = false → gt c b = false → gt c a = false)
    (hasym : ∀ a b, gt a b = true → gt b a = false) (l : List α) :
    (sortDescBy gt l).Pairwise (fun a b => gt b a = false) := by
  induction l with
  | nil => simp [sortDescBy]
  | cons x xs ih => exact pairwise_insertDescBy gt htrans hasym x _ ih

theorem pairwise_stable_insertDescBy {Q : α → α → Prop} (x : α) (l : List α)
    (hl : l.Pairwise (fun a b => gt a b = true ∨ Q a b))
    (hx : ∀ z ∈ l, Q x z) :
    (insertDescBy gt x l).Pairwise (fun a b => gt a b = true ∨ Q a b) := by
  induction l with
  | nil => simp [insertDescBy]
  | cons y ys ih =>
    rcases List.pairwise_cons.mp hl with ⟨hy, hys⟩
    simp only [insertDescBy]
    by_cases hgt : gt y x = true
    · rw [if_pos hgt]
      refine List.pairwise_cons.mpr ⟨?_, ?_⟩
      · intro z hz
        rcases (mem_insertDescBy gt x z ys).mp hz with rfl | hz
        · exact Or.inl hgt
        · exact hy z hz
      · exact ih hys (fun z hz => hx z (List.mem_cons_of_mem y hz))
    · rw [if_neg hgt]
      refine List.pairwise_cons.mpr ⟨?_, hl⟩
      intro z hz
      exact Or.inr (hx z hz)

theorem pairwise_stable_sortDescBy {Q : α → α → Prop} (l : List α)
    (h : l.Pairwise Q) :
    (sortDescBy gt l).Pairwise (fun a b => gt a b = true ∨ Q a b) := by
  induction l with
  | nil => simp [sortDescBy]
  | cons x xs ih =>
    rcases List.pairwise_cons.mp h with ⟨hx, hxs⟩
    refine pairwise_stable_insertDescBy gt x _ (ih hxs) ?_
    intro z hz
    exact hx z ((mem_sortDescBy gt z xs).mp hz)

end SortLemmas

theorem pairwise_filterMap {α β : Type _} {F : α → Option β}
    {R : α → α → Prop} {S : β → β → Prop}
    (h : ∀ a b a' b', F a = some a' → F b = some b' → R a b → S a' b')
    (l : List α) (hl : l.Pairwise R) : (l.filterMap F).Pairwise S := by
  induction hl with
  | nil => simp
  | @cons a l' h1 h2 ih =>
    rw [List.filterMap_cons]
    cases hFa : F a with
    | none => exact ih
    | some a' =>
      refine List.pairwise_cons.mpr ⟨?_, ih⟩
      intro b' hb'
      rcases List.mem_filterMap.mp hb' with ⟨b, hb, hFb⟩
      exact h a b a' b' hFa hFb (h1 b hb)

theorem take_sortDescBy_spec (n : Nat) (all : List ScoredCandidate)
    (hidx : all.Pairwise (fun a b => a.idx < b.idx)) :
    ((sortDescBy scoreGT all).take n).length ≤ n ∧
    ((sortDescBy scoreGT all).take n).Pairwise (fun a b => b.score ≤ a.score) ∧
    ((sortDescBy scoreGT all).take n).Pairwise
      (fun a b => a.score = b.score → a.idx < b.idx) ∧
    ∀ c ∈ (sortDescBy scoreGT all).take n, c ∈ all := by
  have htrans : ∀ a b c : ScoredCandidate, scoreGT b a = false →
      scoreGT c b = false → scoreGT c a = false := by
    intro a b c h1 h2
    simp only [scoreGT, decide_eq_false_iff_not, not_lt] at h1 h2 ⊢
    exact le_trans h2 h1
  have hasym : ∀ a b : ScoredCandidate, scoreGT a b = true →
      scoreGT b a = false := by
    intro a b h
    simp only [scoreGT, decide_eq_true_eq] at h
    simp only [scoreGT, decide_eq_false_iff_not, not_lt]
    exact le_of_lt h
  refine ⟨List.length_take_le _ _, ?_, ?_, ?_⟩
  · have hs := pairwise_sortDescBy scoreGT htrans hasym all
    have hs2 : (sortDescBy scoreGT all).Pairwise (fun a b => b.score ≤ a.score) :=
      hs.imp (fun h => by
        simp only [scoreGT, decide_eq_false_iff_not, not_lt] at h
        exact h)
    exact hs2.sublist (List.take_sublist _ _)
  · have hs := pairwise_stable_sortDescBy scoreGT all hidx
    have hs2 : (sortDescBy scoreGT all).Pairwise
        (fun a b => a.score = b.score → a.idx < b.idx) :=
      hs.imp (fun h heq => by
        rcases h with ht | hq
        · simp only [scoreGT, decide_eq_true_eq] at ht
          rw [heq] at ht
          exact absurd ht (lt_irrefl _)
        · exact hq)
    exact hs2.sublist (List.take_sublist _ _)
  · intro c hc
    exact (mem_sortDescBy scoreGT c all).mp (List.take_subset _ _ hc)


theorem firstArgmax_eq_none (l : List Nat) : firstArgmax l = none ↔ l = [] := by
  cases l with
  | nil => simp [firstArgmax]
  | cons v vs =>
    constructor
    · intro h
      exfalso
      simp only [firstArgmax] at h
      cases hfa : firstArgmax vs with
      | none =>
        rw [hfa] at h
        cases h
      | some p =>
        obtain ⟨j, u⟩ := p
        rw [hfa] at h
        have h' : (if v < u then some (j + 1, u) else some (0, v)) =
            (none : Option (Nat × Nat)) := h
        by_cases hlt : v < u
        · rw [if_pos hlt] at h'; cases h'
        · rw [if_neg hlt] at h'; cases h'
    · intro h
      simp at h

theorem firstArgmax_spec (l : List Nat) : ∀ i w, firstArgmax l = some (i, w) →
    l.get? i = some w ∧ ∀ v ∈ l, v ≤ w := by
  induction l with
  | nil => intro i w h; cases h
  | cons v vs ih =>
    intro i w h
    simp only [firstArgmax] at h
    cases hfa : firstArgmax vs with
    | none =>
      rw [hfa] at h
      simp only [Option.some.injEq, Prod.mk.injEq] at h
      obtain ⟨h1, h2⟩ := h
      subst h1
      subst h2
      have hvs : vs = [] := (firstArgmax_eq_none vs).mp hfa
      subst hvs
      exact ⟨rfl, by simp⟩
    | some p =>
      obtain ⟨j, u⟩ := p
      rw [hfa] at h
      have h' : (if v < u then some (j + 1, u) else some (0, v)) =
          some (i, w) := h
      by_cases hlt : v < u
      · rw [if_pos hlt] at h'
        simp only [Option.some.injEq, Prod.mk.injEq] at h'
        obtain ⟨h1, h2⟩ := h'
        subst h1
        subst h2
        refine ⟨(ih j u hfa).1, ?_⟩
        intro x hx
        rcases List.mem_cons.mp hx with rfl | hx
        · exact le_of_lt hlt
        · exact (ih j u hfa).2 x hx
      · rw [if_neg hlt] at h'
        simp only [Option.some.injEq, Prod.mk.injEq] at h'
        obtain ⟨h1, h2⟩ := h'
        subst h1
        subst h2
        refine ⟨rfl, ?_⟩
        intro x hx
        rcases List.mem_cons.mp hx with rfl | hx
        · exact le_refl x
        · exact le_trans ((ih j u hfa).2 x hx) (not_lt.mp hlt)

theorem selectByOverlap_mem (userLower : List Char) (c0 : ScoredCandidate)
    (rest : List ScoredCandidate) :
    ∃ c, selectByOverlap userLower (c0 :: rest) c0 = some c ∧ c ∈ c0 :: rest := by
  unfold selectByOverlap
  cases hs : sortDescBy overlapGT ((c0 :: rest).enum.map
      (fun p => (overlap_score userLower p.2, p.1, p.2))) with
  | nil =>
    exfalso
    have hlen := length_sortDescBy overlapGT ((c0 :: rest).enum.map
      (fun p => (overlap_score userLower p.2, p.1, p.2)))
    rw [hs] at hlen
    simp at hlen
  | cons top tl =>
    show ∃ c, (if 0 < top.1 then some top.2.2 else some c0) = some c ∧
      c ∈ c0 :: rest
    have htop : top ∈ sortDescBy overlapGT ((c0 :: rest).enum.map
        (fun p => (overlap_score userLower p.2, p.1, p.2))) := by
      rw [hs]
      exact List.mem_cons_self _ _
    have htop2 := (mem_sortDescBy overlapGT top _).mp htop
    rcases List.mem_map.mp htop2 with ⟨p, hp, hpe⟩
    have hme := List.mem_enum hp
    by_cases h0 : 0 < top.1
    · rw [if_pos h0]
      refine ⟨top.2.2, rfl, ?_⟩
      have h22 : top.2.2 = p.2 := by rw [← hpe]
      rw [h22, hme.2]
      exact List.getElem_mem hme.1
    · rw [if_neg h0]
      exact ⟨c0, rfl, List.mem_cons_self _ _⟩

theorem selectByOverlap_zero (userLower : List Char) (c0 : ScoredCandidate)
    (rest : List ScoredCandidate)
    (ho : ∀ c ∈ c0 :: rest, overlap_score userLower c = 0) :
    selectByOverlap userLower (c0 :: rest) c0 = some c0 := by
  unfold selectByOverlap
  cases hs : sortDescBy overlapGT ((c0 :: rest).enum.map
      (fun p => (overlap_score userLower p.2, p.1, p.2))) with
  | nil =>
    exfalso
    have hlen := length_sortDescBy overlapGT ((c0 :: rest).enum.map
      (fun p => (overlap_score userLower p.2, p.1, p.2)))
    rw [hs] at hlen
    simp at hlen
  | cons top tl =>
    show (if 0 < top.1 then some top.2.2 else some c0) = some c0
    have htop : top ∈ sortDescBy overlapGT ((c0 :: rest).enum.map
        (fun p => (overlap_score userLower p.2, p.1, p.2))) := by
      rw [hs]
      exact List.mem_cons_self _ _
    have htop2 := (mem_sortDescBy overlapGT top _).mp htop
    rcases List.mem_map.mp htop2 with ⟨p, hp, hpe⟩
    have hme := List.mem_enum hp
    have hz : top.1 = 0 := by
      have h1 : top.1 = overlap_score userLower p.2 := by rw [← hpe]
      rw [h1]
      apply ho
      rw [hme.2]
      exact List.getElem_mem hme.1
    rw [if_neg (by simp [hz])]

/-! ## Claim C4 — the Triage Gate blocks until the missing-field set is empty -/

/-- C4: an invocation of a live-handoff tool through the gate while the triage
report still lists missing fields returns a string beginning with
`HANDOFF_BLOCKED` and never one beginning with `SIGNAL: initiate_live_handoff`;
an invocation once the missing-field set is empty returns a genuine
`SIGNAL: initiate_live_handoff` string (the real tool's output unchanged). -/
theorem C4_triage_gate_blocks_until_complete (report : TriageReport)
    (reason deploymentId region token : String) (history : List Message) :
    (report.missing = [] →
      leadsWith signalMarker
        (triageGate report reason deploymentId region token history).toList = true) ∧
    (report.missing ≠ [] →
      leadsWith blockedMarker
        (triageGate report reason deploymentId region token history).toList = true ∧
      leadsWith signalMarker
        (triageGate report reason deploymentId region token history).toList = false) := by
  constructor
  · intro hm
    simp only [triageGate, hm, List.isEmpty_nil, if_true, initiate_live_handoff]
    rw [toList_append]
    apply leadsWith_append
    decide
  · intro hm
    have hne : report.missing.isEmpty = false := by
      cases h : report.missing with
      | nil => exact absurd h hm
      | cons a l => rfl
    constructor
    · simp only [triageGate, hne, Bool.false_eq_true, if_false]
      rw [toList_append, toList_append, toList_append]
      rw [show ("HANDOFF_BLOCKED: missing ").toList =
        "HANDOFF_BLOCKED".toList ++ ": missing ".toList from rfl]
      rw [List.append_assoc, List.append_assoc]
      apply leadsWith_append
      decide
    · simp only [triageGate, hne, Bool.false_eq_true, if_false]
      rw [toList_append, toList_append, toList_append]
      rw [show ("HANDOFF_BLOCKED: missing ").toList =
        'H' :: "ANDOFF_BLOCKED: missing ".toList from rfl]
      simp [signalMarker, leadsWith]

/-- C4 witness: the two branches at concrete inputs — a report missing
`visa_type` is blocked and yields no signal, and a complete report yields the
genuine signal string. -/
theorem C4_witness :
    (leadsWith blockedMarker
      (triageGate ⟨[], ["visa_type"], "Which visa type?"⟩ "visa help" "DEP1"
        "euw2.pure.cloud" "TOK" []).toList = true ∧
     leadsWith signalMarker
      (triageGate ⟨[], ["visa_type"], "Which visa type?"⟩ "visa help" "DEP1"
        "euw2.pure.cloud" "TOK" []).toList = false) ∧
    leadsWith signalMarker
      (triageGate ⟨[("visa_type", "work")], [], "ok"⟩ "visa help" "DEP1"
        "euw2.pure.cloud" "TOK" []).toList = true :=
  ⟨(C4_triage_gate_blocks_until_complete ⟨[], ["visa_type"], "Which visa type?"⟩
      "visa help" "DEP1" "euw2.pure.cloud" "TOK" []).2 (by simp),
   (C4_triage_gate_blocks_until_complete ⟨[("visa_type", "work")], [], "ok"⟩
      "visa help" "DEP1" "euw2.pure.cloud" "TOK" []).1 rfl⟩

/-! ## Claim C6 — evaluator vs helper phone extraction -/

/-- C6 counterexample: on an input with no phone-shaped match the two
functions disagree — the helper returns `NOT_FOUND`, the evaluator
`NOT FOUND`. -/
theorem C6_counterexample :
    extract_and_standardize_phone "no phone here".toList = "NOT_FOUND".toList ∧
    clean_phone_number_for_matrix "no phone here".toList = "NOT FOUND".toList ∧
    clean_phone_number_for_matrix "no phone here".toList ≠
      extract_and_standardize_phone "no phone here".toList := by
  refine ⟨by decide, by decide, by decide⟩

/-- C6 amended: the two extractions agree exactly on the inputs where the
shared regex finds a match; when it finds none they return the distinct
sentinels `NOT FOUND` (evaluator) and `NOT_FOUND` (helper). -/
theorem C6_amended_match_agreement (s : List Char) :
    clean_phone_number_for_matrix s =
      if searchPhone s = none then "NOT FOUND".toList
      else extract_and_standardize_phone s := by
  unfold clean_phone_number_for_matrix extract_and_standardize_phone
  cases h : searchPhone s <;> simp [h]

/-! ## Claim C5 — the clarification-success-gain metric -/

/-- C5 counterexample: with ambiguous clarification rows {1, 2} (one PASS) and
ambiguous forced row {1} (PASS), the source computes
csg = 1/2 − 1 = −1/2 over each table's own rows, while the claim's
joined-rows computation gives 1 − 1 = 0. -/
theorem C5_counterexample :
    (clarification_success_gain_metric c5ExClarity c5ExForced).map
      (fun m => m.clarification_success_gain_csg) = some (-(1 / 2) : ℚ) ∧
    csgOverJoinedRows c5ExClarity c5ExForced = some 0 ∧
    (-(1 / 2) : ℚ) ≠ 0 := by
  refine ⟨?_, ?_, by norm_num⟩
  · simp [clarification_success_gain_metric, c5ExClarity, c5ExForced, passRate,
      costPenaltyC, round4]
    norm_num [Int.floor_eq_iff]
  · simp [csgOverJoinedRows, c5ExClarity, c5ExForced, passRate]

/-- C5 amended: the metric restricts each table to its ambiguous rows, returns
the empty object when either restriction is empty, and otherwise reports
csg = (PASS rate of the clarification table's ambiguous rows) − (PASS rate of
the forced table's ambiguous rows), each rate over that table's own rows — no
join on test id occurs, and indeed the result never depends on any test id. -/
theorem C5_amended_csg_per_table (dfc dff : List EvalRow) (f g : Nat → Nat)
    (hc : dfc.filter (fun r => r.is_ambiguous == true) ≠ [])
    (hf : dff.filter (fun r => r.is_ambiguous == true) ≠ []) :
    (clarification_success_gain_metric dfc dff).map
        (fun m => m.clarification_success_gain_csg) =
      some (round4
        ((((dfc.filter (fun r => r.is_ambiguous == true)).countP
            (fun r => r.match_status == "PASS") : ℚ) /
          ((dfc.filter (fun r => r.is_ambiguous == true)).length : ℚ)) -
         (((dff.filter (fun r => r.is_ambiguous == true)).countP
            (fun r => r.match_status == "PASS") : ℚ) /
          ((dff.filter (fun r => r.is_ambiguous == true)).length : ℚ)))) ∧
    clarification_success_gain_metric (dfc.map (mapTestId f))
        (dff.map (mapTestId g)) =
      clarification_success_gain_metric dfc dff := by
  have hce : (dfc.filter (fun r => r.is_ambiguous == true)).isEmpty = false := by
    cases h : dfc.filter (fun r => r.is_ambiguous == true) with
    | nil => exact absurd h hc
    | cons a l => rfl
  have hfe : (dff.filter (fun r => r.is_ambiguous == true)).isEmpty = false := by
    cases h : dff.filter (fun r => r.is_ambiguous == true) with
    | nil => exact absurd h hf
    | cons a l => rfl
  constructor
  · simp only [clarification_success_gain_metric, hce, hfe, Bool.or_self,
      Bool.false_eq_true, if_false, Option.map_some', passRate, costPenaltyC,
      sub_zero]
  · have hfilter : ∀ (l : List EvalRow) (h : Nat → Nat),
        (l.map (mapTestId h)).filter (fun r => r.is_ambiguous == true) =
          (l.filter (fun r => r.is_ambiguous == true)).map (mapTestId h) := by
      intro l h
      exact List.filter_map (mapTestId h) l
    have hrate : ∀ (l : List EvalRow) (h : Nat → Nat),
        passRate (l.map (mapTestId h)) = passRate l := by
      intro l h
      simp only [passRate, List.countP_map, List.length_map]
      rfl
    have hempty : ∀ (l : List EvalRow) (h : Nat → Nat),
        (l.map (mapTestId h)).isEmpty = l.isEmpty := by
      intro l h
      cases l <;> rfl
    simp only [clarification_success_gain_metric, hfilter, hempty, hrate,
      List.length_map]

/-- C5 witness: the spec's scenario — pass rates 0.8 and 0.5 over the same 10
ambiguous test ids give csg = 0.3. -/
theorem C5_witness :
    (clarification_success_gain_metric c5ScenarioClarity c5ScenarioForced).map
      (fun m => m.clarification_success_gain_csg) = some (3 / 10 : ℚ) := by
  have h := (C5_amended_csg_per_table c5ScenarioClarity c5ScenarioForced id id
    (by simp [c5ScenarioClarity]) (by simp [c5ScenarioForced])).1
  rw [h]
  simp [c5ScenarioClarity, c5ScenarioForced, round4]
  norm_num [Int.floor_eq_iff]

/-! ## Claim C1 — the orchestration loop has no iteration cap -/

/-- C1: the source's `while True` loop has no maximum-iteration bound.
Against a model that on every call returns a tool call naming the one
registered, always-succeeding tool (and never emits a handoff signal), the
loop is still running after any number `fuel` of iterations, whatever the
tool body, the prompt, the starting history and the clarification flag. -/
theorem C1_loop_never_terminates (fuel : Nat) (f : ToolArgs → String)
    (prompt : String) (hist : List Message) (awaiting : Bool) :
    sendMessageAndHandleTools [("query_csv_rag", f)] advOracle none fuel
      prompt hist awaiting = none := by
  have main : ∀ (n iter : Nat) (h : List Message) (aw : Bool),
      toolLoop [("query_csv_rag", f)] advOracle n iter h aw = none := by
    intro n
    induction n with
    | zero => intro iter h aw; rfl
    | succ n ih =>
      intro iter h aw
      simp only [toolLoop, advOracle, extractToolCalls, extractText,
        List.filter_cons, List.filter_nil, List.findSome?]
      simp [ih]
  simp only [sendMessageAndHandleTools, truthy, Bool.false_eq_true, if_false]
  exact main fuel 0 _ _

/-! ## Claim C2 — text-only responses and the awaiting-clarification flag -/

/-- C2 counterexample: the agent WAS awaiting clarification (flag true) when
the user's message arrived, the model answers with text only — the claim says
this is the terminal response with the flag left unset, but the source clears
the flag on arrival and then takes the clarification branch: the flag ends up
set. -/
theorem C2_counterexample :
    (sendMessageAndHandleTools [] textOracle none 1 "London please" []
        true).map (fun r => (r.text, r.awaiting)) =
      some ("The answer is 42.", true) ∧
    (sendMessageAndHandleTools [] textOracle none 1 "London please" []
        true).map (fun r => r.awaiting) ≠ some false := by
  constructor
  · rfl
  · intro h
    simp [sendMessageAndHandleTools, toolLoop, textOracle, truthy,
      extractToolCalls, extractText, addToHistory] at h

/-- C2 amended: the `awaiting_clarification` flag is cleared as soon as the
user's message arrives, so the in-loop check `not self.awaiting_clarification`
always passes on the first model response: a first response with zero tool
calls and non-empty text always sets the flag and is returned immediately,
whether or not the agent was awaiting clarification when the message arrived.
(The terminal branch that leaves the flag unset is reachable only for a
response with zero tool calls and no non-empty text.) -/
theorem C2_amended_text_only_sets_flag (reg : ToolRegistry)
    (oracle : Nat → List ContentBlock) (prompt : String) (hist : List Message)
    (awaiting : Bool) (fuel : Nat) (t : String)
    (hcalls : extractToolCalls (oracle 0) = [])
    (htext : extractText (oracle 0) = some t) (hne : t ≠ "") :
    sendMessageAndHandleTools reg oracle none (fuel + 1) prompt hist awaiting =
      some ⟨t,
        addToHistory (addToHistory hist "user" (some prompt) [] [])
          "assistant" (some t) [] [], true⟩ := by
  have haw : (if awaiting then false else awaiting) = false := by
    cases awaiting <;> rfl
  simp only [sendMessageAndHandleTools, truthy, Bool.false_eq_true, if_false,
    haw, toolLoop, hcalls, htext]
  simp [hne]

/-- C2 witness: a concrete run of the amended claim — flag initially unset,
text-only model response, the text is returned and the flag is set. -/
theorem C2_amended_witness :
    sendMessageAndHandleTools [] textOracle none 1 "hello" [] false =
      some ⟨"The answer is 42.",
        addToHistory (addToHistory [] "user" (some "hello") [] [])
          "assistant" (some "The answer is 42.") [] [], true⟩ :=
  C2_amended_text_only_sets_flag [] textOracle "hello" [] false 0
    "The answer is 42." rfl rfl (by decide)

/-! ## Claim C10 — unauthorized tool calls -/

/-- C10: when the model requests a tool absent from the registry, the loop
does not raise: the batch of results pairs every request with a `tool_result`
in order, the unauthorized call's result is correlated to its `tool_use_id`
and its text contains "not allowed", and the loop appends the whole batch as
one turn and continues with the remaining calls' results included. -/
theorem C10_unauthorized_tool_not_allowed (reg : ToolRegistry)
    (oracle : Nat → List ContentBlock) (fuel iter : Nat) (hist : List Message)
    (awaiting : Bool) (pre post : List ContentBlock) (id name : String)
    (args : ToolArgs)
    (hcalls : extractToolCalls (oracle iter) =
      pre ++ ContentBlock.toolUse id name args :: post)
    (hlook : lookupTool reg name = none) :
    executeToolCalls reg (pre ++ ContentBlock.toolUse id name args :: post) =
      executeToolCalls reg pre ++
        ContentBlock.toolResult id ("Tool '" ++ name ++ "' is not allowed.") ::
        executeToolCalls reg post ∧
    occursIn "not allowed".toList
      ("Tool '" ++ name ++ "' is not allowed.").toList = true ∧
    toolLoop reg oracle (fuel + 1) iter hist awaiting =
      toolLoop reg oracle fuel (iter + 1)
        (addToHistory
          (addToHistory hist "assistant" (extractText (oracle iter))
            (pre ++ ContentBlock.toolUse id name args :: post) [])
          "user" none []
          (executeToolCalls reg
            (pre ++ ContentBlock.toolUse id name args :: post)))
        awaiting := by
  refine ⟨?_, ?_, ?_⟩
  · simp [executeToolCalls, execToolCall, hlook]
  · have h1 : ("Tool '" ++ name ++ "' is not allowed.").toList =
        ("Tool '" ++ name).toList ++ "' is not allowed.".toList :=
      toList_append _ _
    rw [h1]
    exact occursIn_append_right _ _ _ (by decide)
  · have hne : pre ++ ContentBlock.toolUse id name args :: post ≠ [] := by
      simp
    simp only [toolLoop, hcalls]
    rw [if_neg (by simp), if_neg (by simp)]

/-- C10 witness: the first model turn asks for the unknown `bad_tool` and then
the registered `query_csv_rag`; the loop records "not allowed" for the former,
the real output for the latter, in order, and finishes normally on the next
turn. -/
theorem C10_witness :
    occursIn "not allowed".toList
      ("Tool '" ++ "bad_tool" ++ "' is not allowed.").toList = true ∧
    executeToolCalls csvRegistry
        (ContentBlock.toolUse "a" "bad_tool" [] ::
          ContentBlock.toolUse "b" "query_csv_rag" [("user_query", "x")] :: []) =
      ContentBlock.toolResult "a" ("Tool '" ++ "bad_tool" ++ "' is not allowed.") ::
        ContentBlock.toolResult "b" "Retrieved Context:\n..." :: [] :=
  ⟨(C10_unauthorized_tool_not_allowed csvRegistry c10Oracle 1 0 [] false []
      [ContentBlock.toolUse "b" "query_csv_rag" [("user_query", "x")]]
      "a" "bad_tool" [] rfl rfl).2.1,
   ((C10_unauthorized_tool_not_allowed csvRegistry c10Oracle 1 0 [] false []
      [ContentBlock.toolUse "b" "query_csv_rag" [("user_query", "x")]]
      "a" "bad_tool" [] rfl rfl).1).trans (by rfl)⟩

/-! ## Claim C3 — when disambiguation is needed -/

/-- C3 counterexample: two equal-scoring strong near-duplicates of the same
service plus one weak candidate of a different service.  The source counts
distinct triples over all candidates with a non-empty service name, so it
answers `true`; the claim, counting triples over the strong candidates only,
demands `false` (all four claimed conditions cannot hold: the strong
candidates share one triple). -/
theorem C3_counterexample :
    needs_disambiguation {} [c3Dup1, c3Dup2, c3Weak] = true ∧
    needsDisambiguationClaim {} [c3Dup1, c3Dup2, c3Weak] = false := by
  constructor
  · norm_num [needs_disambiguation, c3Dup1, c3Dup2, c3Weak, serviceTriple,
      List.filter, show decide ("Service A" = "") = false from rfl,
      show decide ("Service B" = "") = false from rfl]
    decide
  · norm_num [needsDisambiguationClaim, c3Dup1, c3Dup2, c3Weak, serviceTriple,
      List.filter, show decide ("Service A" = "") = false from rfl,
      show decide ("Service B" = "") = false from rfl]

/-- C3 amended: `needs_disambiguation` returns true iff at least two
candidates exist, the top two scores differ by AT MOST the gap threshold
(`<=` in the source), at least two candidates score at or above the strong
threshold, and the candidates with a non-empty service name — across the
whole list, not only the strong ones — represent more than one distinct
(service_name, department, user_type) triple. -/
theorem C3_amended_needs_disambiguation_iff (cfg : CandidateConfig)
    (cs : List ScoredCandidate) :
    needs_disambiguation cfg cs = true ↔
      ∃ c0 c1 rest, cs = c0 :: c1 :: rest ∧
        |c0.score - c1.score| ≤ cfg.ambiguity_similarity_gap ∧
        2 ≤ cs.countP (fun c => cfg.strong_candidate_threshold ≤ c.score) ∧
        ∃ a ∈ cs, ∃ b ∈ cs, a.record.service_name ≠ "" ∧
          b.record.service_name ≠ "" ∧ serviceTriple a ≠ serviceTriple b := by
  cases cs with
  | nil => simp [needs_disambiguation]
  | cons c0 cs' =>
    cases cs' with
    | nil => simp [needs_disambiguation]
    | cons c1 rest =>
      rw [List.countP_eq_length_filter]
      simp only [needs_disambiguation, Bool.and_eq_true, decide_eq_true_eq]
      constructor
      · rintro ⟨⟨hgap, hstrong⟩, hcard⟩
        refine ⟨c0, c1, rest, rfl, hgap, hstrong, ?_⟩
        obtain ⟨x, hx, y, hy, hxy⟩ := Finset.one_lt_card.mp hcard
        rw [List.mem_toFinset, List.mem_map] at hx hy
        obtain ⟨a, ha, rfl⟩ := hx
        obtain ⟨b, hb, rfl⟩ := hy
        rw [List.mem_filter] at ha hb
        exact ⟨a, ha.1, b, hb.1, by simpa using ha.2, by simpa using hb.2, hxy⟩
      · rintro ⟨c0', c1', rest', heq, hgap, hstrong, a, ha, b, hb, hna, hnb, hab⟩
        cases heq
        refine ⟨⟨hgap, hstrong⟩, ?_⟩
        apply Finset.one_lt_card.mpr
        refine ⟨serviceTriple a, ?_, serviceTriple b, ?_, hab⟩
        · rw [List.mem_toFinset]
          exact List.mem_map_of_mem _ (List.mem_filter.mpr ⟨ha, by simpa using hna⟩)
        · rw [List.mem_toFinset]
          exact List.mem_map_of_mem _ (List.mem_filter.mpr ⟨hb, by simpa using hnb⟩)

/-! ## Claim C7 — `get_top_candidates` filtering, bound, order, stability -/

/-- C7 amended: every candidate `get_top_candidates` returns has combined
score (cosine base plus lexical bonus) at or above `weak_candidate_floor`; at
most `n` candidates are returned where `n` is `top_n` when a non-zero count is
passed and `config.top_k` otherwise (Python's `top_n or top_k` also falls back
on a passed 0); they are sorted descending by score; and equal-score
candidates keep their original corpus order (`idx` is the `enumerate`
position). -/
theorem C7_amended_get_top_candidates_spec (cfg : CandidateConfig) (q : String)
    (corpus : List (ℚ × Candidate)) (top_n : Option Nat) :
    (∀ c ∈ get_top_candidates cfg q corpus top_n,
        cfg.weak_candidate_floor ≤ c.score) ∧
    (get_top_candidates cfg q corpus top_n).length ≤ resolveTopN cfg top_n ∧
    (get_top_candidates cfg q corpus top_n).Pairwise
      (fun a b => b.score ≤ a.score) ∧
    (get_top_candidates cfg q corpus top_n).Pairwise
      (fun a b => a.score = b.score → a.idx < b.idx) := by
  have hidx : (corpus.enum.filterMap (fun p =>
      let bonus := tag_description_bonus p.2.2 q
      let score := p.2.1 + bonus
      if cfg.weak_candidate_floor ≤ score then
        some (⟨p.1, p.2.2, p.2.1, bonus, score⟩ : ScoredCandidate)
      else none)).Pairwise (fun a b => a.idx < b.idx) := by
    have h1 := List.pairwise_lt_range corpus.length
    rw [← List.enum_map_fst corpus] at h1
    have h2 := List.pairwise_map.mp h1
    refine pairwise_filterMap ?_ _ h2
    intro a b a' b' ha hb hR
    dsimp only at ha hb
    split at ha
    · cases ha
      split at hb
      · cases hb
        exact hR
      · cases hb
    · cases ha
  have hspec := take_sortDescBy_spec (resolveTopN cfg top_n) _ hidx
  have hdef : get_top_candidates cfg q corpus top_n =
      (sortDescBy scoreGT (corpus.enum.filterMap (fun p =>
        let bonus := tag_description_bonus p.2.2 q
        let score := p.2.1 + bonus
        if cfg.weak_candidate_floor ≤ score then
          some (⟨p.1, p.2.2, p.2.1, bonus, score⟩ : ScoredCandidate)
        else none))).take (resolveTopN cfg top_n) := rfl
  rw [hdef]
  refine ⟨?_, hspec.1, hspec.2.1, hspec.2.2.1⟩
  intro c hc
  have hc2 := hspec.2.2.2 c hc
  rcases List.mem_filterMap.mp hc2 with ⟨x, _, hFx⟩
  dsimp only at hFx
  split at hFx
  · cases hFx
    assumption
  · cases hFx

theorem tag_description_bonus_nonneg (c : Candidate) (q : String) :
    0 ≤ tag_description_bonus c q := by
  unfold tag_description_bonus
  apply le_min
  · positivity
  · norm_num

/-- C7 counterexample: with `top_n = 0` the claim demands at most 0 results,
but Python's `top_n or self.config.top_k` treats 0 as falsy and falls back to
`top_k`: one passing candidate is returned. -/
theorem C7_counterexample :
    (get_top_candidates {} "" [(1/2, {})] (some 0)).length = 1 ∧
    ¬ ((get_top_candidates {} "" [(1/2, {})] (some 0)).length ≤ 0) := by
  have h0 := tag_description_bonus_nonneg {} ""
  have hcond : (25/100 : ℚ) ≤ 2⁻¹ + tag_description_bonus {} "" := by
    linarith
  have h : get_top_candidates {} "" [(1/2, {})] (some 0) =
      [⟨0, {}, 1/2, tag_description_bonus {} "",
        1/2 + tag_description_bonus {} ""⟩] := by
    unfold get_top_candidates
    simp [List.enum, List.enumFrom, resolveTopN, sortDescBy, insertDescBy, hcond]
  rw [h]
  simp


/-! ## Claim C8 — clarification resolution stays within the candidate list -/

/-- C8: for every user text and non-empty candidate list,
`select_candidate_from_clarification` returns an element of that list (never
none, never a foreign value); and when the text matches no region keyword and
has zero word overlap with every candidate, it returns the first (top-ranked)
candidate. -/
theorem C8_select_candidate_spec (user_text : String) (candidates : List ScoredCandidate) :
    (candidates ≠ [] → ∃ c,
      select_candidate_from_clarification user_text candidates = some c ∧
        c ∈ candidates) ∧
    ((∀ c ∈ candidates, regionScore (lowerChars user_text.toList) c = 0) →
     (∀ c ∈ candidates, overlap_score (lowerChars user_text.toList) c = 0) →
     select_candidate_from_clarification user_text candidates =
       candidates.head?) := by
  constructor
  · intro hne
    cases candidates with
    | nil => exact absurd rfl hne
    | cons c0 rest =>
      simp only [select_candidate_from_clarification]
      by_cases hany : ((c0 :: rest).map (regionScore (lowerChars user_text.toList))).any
          (fun s => 0 < s) = true
      · rw [if_pos hany]
        cases hfa : firstArgmax ((c0 :: rest).map
            (regionScore (lowerChars user_text.toList))) with
        | none =>
          rw [firstArgmax_eq_none] at hfa
          simp at hfa
        | some p =>
          obtain ⟨i, w⟩ := p
          have hspec := firstArgmax_spec _ i w hfa
          have hw : 0 < w := by
            rcases List.any_eq_true.mp hany with ⟨v, hv, hv0⟩
            exact lt_of_lt_of_le (by simpa using hv0) (hspec.2 v hv)
          have hget : ((c0 :: rest).map
              (regionScore (lowerChars user_text.toList))).getD i 0 = w := by
            rw [List.getD_eq_getElem?_getD, ← List.get?_eq_getElem?, hspec.1]
            rfl
          show ∃ c, (if 0 < ((c0 :: rest).map
              (regionScore (lowerChars user_text.toList))).getD i 0
            then (c0 :: rest).get? i
            else selectByOverlap (lowerChars user_text.toList) (c0 :: rest) c0) = some c ∧
            c ∈ c0 :: rest
          rw [hget]
          rw [if_pos hw]
          have hi : i < (c0 :: rest).length := by
            have := List.get?_eq_some.mp hspec.1
            simpa using this.1
          rw [List.get?_eq_get hi]
          exact ⟨_, rfl, List.get_mem _ _ _⟩
      · rw [if_neg hany]
        exact selectByOverlap_mem _ c0 rest
  · intro hr ho
    cases candidates with
    | nil => rfl
    | cons c0 rest =>
      simp only [select_candidate_from_clarification]
      have hany : ((c0 :: rest).map (regionScore (lowerChars user_text.toList))).any
          (fun s => 0 < s) = false := by
        rw [Bool.eq_false_iff]
        intro h
        rcases List.any_eq_true.mp h with ⟨v, hv, hv0⟩
        rcases List.mem_map.mp hv with ⟨c, hc, rfl⟩
        rw [hr c hc] at hv0
        simp at hv0
      rw [if_neg (fun h => Bool.false_ne_true (hany ▸ h))]
      show selectByOverlap (lowerChars user_text.toList) (c0 :: rest) c0 = (c0 :: rest).head?
      rw [selectByOverlap_zero _ c0 rest ho]
      rfl

/-- C8 witness: a concrete run of both parts — with a candidate sharing no
words with the user text, the selection is defined, stays in the list, and
falls back to the top-ranked candidate. -/
theorem C8_witness :
    (∃ c, select_candidate_from_clarification "zzz" [c3Weak] = some c ∧
      c ∈ [c3Weak]) ∧
    select_candidate_from_clarification "zzz" [c3Weak] = [c3Weak].head? :=
  ⟨(C8_select_candidate_spec "zzz" [c3Weak]).1 (by simp),
   (C8_select_candidate_spec "zzz" [c3Weak]).2 (by decide) (by decide)⟩

theorem beq_eq_false_of_digit {c : Char} (x : Char) (h : c.isDigit = true)
    (hx : x.isDigit = false) : (c == x) = false := by
  cases hb : c == x
  · rfl
  · exfalso
    have hcx : c = x := eq_of_beq hb
    rw [hcx] at h
    rw [hx] at h
    exact Bool.noConfusion h

theorem isSepChar_of_digit {c : Char} (h : c.isDigit = true) :
    isSepChar c = false := by
  simp [isSepChar, isSpaceChar,
    beq_eq_false_of_digit ' ' h (by decide),
    beq_eq_false_of_digit '\t' h (by decide),
    beq_eq_false_of_digit '\n' h (by decide),
    beq_eq_false_of_digit '\r' h (by decide),
    beq_eq_false_of_digit '\x0b' h (by decide),
    beq_eq_false_of_digit '\x0c' h (by decide),
    beq_eq_false_of_digit '-' h (by decide)]

theorem isWordChar_of_digit {c : Char} (h : c.isDigit = true) :
    isWordChar c = true := by
  simp [isWordChar, Char.isAlphanum, h]

theorem bne_space_of_digit {c : Char} (h : c.isDigit = true) :
    (c != ' ') = true := by
  simp [bne, beq_eq_false_of_digit ' ' h (by decide)]

theorem bne_hyphen_of_digit {c : Char} (h : c.isDigit = true) :
    (c != '-') = true := by
  simp [bne, beq_eq_false_of_digit '-' h (by decide)]

theorem takeExactDigits_spec : ∀ (n : Nat) (l p r : List Char),
    takeExactDigits n l = some (p, r) →
    p.length = n ∧ (∀ c ∈ p, c.isDigit = true) ∧ l = p ++ r := by
  intro n
  induction n with
  | zero =>
    intro l p r h
    simp only [takeExactDigits, Option.some.injEq, Prod.mk.injEq] at h
    obtain ⟨h1, h2⟩ := h
    subst h1
    subst h2
    exact ⟨rfl, by simp, rfl⟩
  | succ n ih =>
    intro l p r h
    cases l with
    | nil => simp [takeExactDigits] at h
    | cons c rest =>
      simp only [takeExactDigits] at h
      by_cases hc : c.isDigit = true
      · rw [if_pos hc] at h
        cases hq : takeExactDigits n rest with
        | none => rw [hq] at h; cases h
        | some q =>
          obtain ⟨q1, q2⟩ := q
          rw [hq] at h
          simp only [Option.map_some', Option.some.injEq, Prod.mk.injEq] at h
          obtain ⟨h1, h2⟩ := h
          subst h1
          subst h2
          obtain ⟨t1, t2, t3⟩ := ih rest q1 q2 hq
          refine ⟨by simp [t1], ?_, by simp [t3]⟩
          intro x hx
          rcases List.mem_cons.mp hx with rfl | hx
          · exact hc
          · exact t2 x hx
      · rw [if_neg hc] at h
        cases h

theorem sepOptions_spec : ∀ (l : List Char) (s : Option Char) (r : List Char),
    (s, r) ∈ sepOptions l →
    l = s.toList ++ r ∧ ∀ x, s = some x → isSepChar x = true := by
  intro l s r h
  cases l with
  | nil =>
    simp only [sepOptions, List.mem_singleton, Prod.mk.injEq] at h
    obtain ⟨h1, h2⟩ := h
    subst h1
    subst h2
    exact ⟨rfl, by intro x hx; cases hx⟩
  | cons c rest =>
    simp only [sepOptions] at h
    by_cases hc : isSepChar c = true
    · rw [if_pos hc] at h
      rcases List.mem_cons.mp h with heq | heq
      · rw [Prod.mk.injEq] at heq
        obtain ⟨h1, h2⟩ := heq
        subst h1
        subst h2
        refine ⟨rfl, ?_⟩
        intro x hx
        cases hx
        exact hc
      · simp only [List.mem_singleton, Prod.mk.injEq] at heq
        obtain ⟨h1, h2⟩ := heq
        subst h1
        subst h2
        exact ⟨rfl, by intro x hx; cases hx⟩
    · rw [if_neg hc] at h
      simp only [List.mem_singleton, Prod.mk.injEq] at h
      obtain ⟨h1, h2⟩ := h
      subst h1
      subst h2
      exact ⟨rfl, by intro x hx; cases hx⟩

theorem candA_spec (l g rest : List Char) (h : (g, rest) ∈ candA l) :
    l = g ++ rest ∧
    ∃ (a b c : List Char) (s1 s2 : Option Char),
      g = a ++ s1.toList ++ b ++ s2.toList ++ c ∧
      (a.length = 4 ∨ a.length = 3) ∧ b.length = 3 ∧
      (c.length = 4 ∨ c.length = 3) ∧
      (∀ x ∈ a, x.isDigit = true) ∧ (∀ x ∈ b, x.isDigit = true) ∧
      (∀ x ∈ c, x.isDigit = true) ∧
      (∀ x, s1 = some x → isSepChar x = true) ∧
      (∀ x, s2 = some x → isSepChar x = true) := by
  unfold candA at h
  rcases List.mem_flatMap.mp h with ⟨p1, hp1, h⟩
  rcases List.mem_flatMap.mp h with ⟨s1p, hs1, h⟩
  rcases List.mem_flatMap.mp h with ⟨p2, hp2, h⟩
  rcases List.mem_flatMap.mp h with ⟨s2p, hs2, h⟩
  rcases List.mem_map.mp h with ⟨p3, hp3, heq⟩
  unfold digitOptions at hp1 hp2 hp3
  rcases List.mem_filterMap.mp hp1 with ⟨n1, hn1mem, hn1⟩
  rcases List.mem_filterMap.mp hp2 with ⟨n2, hn2mem, hn2⟩
  rcases List.mem_filterMap.mp hp3 with ⟨n3, hn3mem, hn3⟩
  obtain ⟨t1a, t1b, t1c⟩ := takeExactDigits_spec n1 l p1.1 p1.2 hn1
  obtain ⟨e1a, e1b⟩ := sepOptions_spec p1.2 s1p.1 s1p.2 hs1
  obtain ⟨t2a, t2b, t2c⟩ := takeExactDigits_spec n2 s1p.2 p2.1 p2.2 hn2
  obtain ⟨e2a, e2b⟩ := sepOptions_spec p2.2 s2p.1 s2p.2 hs2
  obtain ⟨t3a, t3b, t3c⟩ := takeExactDigits_spec n3 s2p.2 p3.1 p3.2 hn3
  rw [Prod.mk.injEq] at heq
  obtain ⟨hg, hrest⟩ := heq
  constructor
  · rw [t1c, e1a, t2c, e2a, t3c, ← hg, ← hrest]
    simp [List.append_assoc]
  · refine ⟨p1.1, p2.1, p3.1, s1p.1, s2p.1, hg.symm, ?_, ?_, ?_, t1b, t2b,
      t3b, e1b, e2b⟩
    · simp only [List.mem_cons, List.not_mem_nil, or_false] at hn1mem
      rcases hn1mem with rfl | rfl
      · exact Or.inl t1a
      · exact Or.inr t1a
    · simp only [List.mem_cons, List.not_mem_nil, or_false] at hn2mem
      rw [hn2mem] at t2a
      exact t2a
    · simp only [List.mem_cons, List.not_mem_nil, or_false] at hn3mem
      rcases hn3mem with rfl | rfl
      · exact Or.inl t3a
      · exact Or.inr t3a

theorem candB_spec (l g rest : List Char) (h : (g, rest) ∈ candB l) :
    l = g ++ rest ∧
    ∃ (a b c d : List Char) (s1 s2 s3 : Option Char),
      g = a ++ s1.toList ++ b ++ s2.toList ++ c ++ s3.toList ++ d ∧
      a.length = 4 ∧ b.length = 2 ∧ c.length = 2 ∧ d.length = 2 ∧
      (∀ x ∈ a, x.isDigit = true) ∧ (∀ x ∈ b, x.isDigit = true) ∧
      (∀ x ∈ c, x.isDigit = true) ∧ (∀ x ∈ d, x.isDigit = true) ∧
      (∀ x, s1 = some x → isSepChar x = true) ∧
      (∀ x, s2 = some x → isSepChar x = true) ∧
      (∀ x, s3 = some x → isSepChar x = true) := by
  unfold candB at h
  rcases List.mem_flatMap.mp h with ⟨p1, hp1, h⟩
  rcases List.mem_flatMap.mp h with ⟨s1p, hs1, h⟩
  rcases List.mem_flatMap.mp h with ⟨p2, hp2, h⟩
  rcases List.mem_flatMap.mp h with ⟨s2p, hs2, h⟩
  rcases List.mem_flatMap.mp h with ⟨p3, hp3, h⟩
  rcases List.mem_flatMap.mp h with ⟨s3p, hs3, h⟩
  rcases List.mem_map.mp h with ⟨p4, hp4, heq⟩
  unfold digitOptions at hp1 hp2 hp3 hp4
  rcases List.mem_filterMap.mp hp1 with ⟨n1, hn1mem, hn1⟩
  rcases List.mem_filterMap.mp hp2 with ⟨n2, hn2mem, hn2⟩
  rcases List.mem_filterMap.mp hp3 with ⟨n3, hn3mem, hn3⟩
  rcases List.mem_filterMap.mp hp4 with ⟨n4, hn4mem, hn4⟩
  simp only [List.mem_cons, List.not_mem_nil, or_false] at hn1mem hn2mem hn3mem hn4mem
  subst hn1mem
  subst hn2mem
  subst hn3mem
  subst hn4mem
  obtain ⟨t1a, t1b, t1c⟩ := takeExactDigits_spec 4 l p1.1 p1.2 hn1
  obtain ⟨e1a, e1b⟩ := sepOptions_spec p1.2 s1p.1 s1p.2 hs1
  obtain ⟨t2a, t2b, t2c⟩ := takeExactDigits_spec 2 s1p.2 p2.1 p2.2 hn2
  obtain ⟨e2a, e2b⟩ := sepOptions_spec p2.2 s2p.1 s2p.2 hs2
  obtain ⟨t3a, t3b, t3c⟩ := takeExactDigits_spec 2 s2p.2 p3.1 p3.2 hn3
  obtain ⟨e3a, e3b⟩ := sepOptions_spec p3.2 s3p.1 s3p.2 hs3
  obtain ⟨t4a, t4b, t4c⟩ := takeExactDigits_spec 2 s3p.2 p4.1 p4.2 hn4
  rw [Prod.mk.injEq] at heq
  obtain ⟨hg, hrest⟩ := heq
  constructor
  · rw [t1c, e1a, t2c, e2a, t3c, e3a, t4c, ← hg, ← hrest]
    simp [List.append_assoc]
  · exact ⟨p1.1, p2.1, p3.1, p4.1, s1p.1, s2p.1, s3p.1, hg.symm, t1a, t2a,
      t3a, t4a, t1b, t2b, t3b, t4b, e1b, e2b, e3b⟩

theorem matchHere_spec (l g : List Char) (h : matchHere l = some g) :
    ∃ rest, ((g, rest) ∈ candA l ∨ (g, rest) ∈ candB l) ∧
      endBoundary rest = true := by
  unfold matchHere at h
  cases hf : (phoneCandidates l).find? (fun m => endBoundary m.2) with
  | none =>
    rw [hf] at h
    cases h
  | some m =>
    rw [hf] at h
    simp only [Option.map_some', Option.some.injEq] at h
    have hp := List.mem_of_find?_eq_some hf
    have hend := List.find?_some hf
    refine ⟨m.2, ?_, hend⟩
    have hm : (g, m.2) = m := by
      rw [← h]
    rw [hm]
    exact List.mem_append.mp hp

theorem searchAux_spec : ∀ (prev : Option Char) (l g : List Char),
    searchAux prev l = some g →
    ∃ l', l' <:+ l ∧ matchHere l' = some g := by
  intro prev l
  induction l generalizing prev with
  | nil => intro g h; cases h
  | cons c rest ih =>
    intro g h
    cases prev with
    | none =>
      simp only [searchAux] at h
      cases hm : matchHere (c :: rest) with
      | some m =>
        rw [hm] at h
        have h2 : some m = some g := h
        simp only [Option.some.injEq] at h2
        subst h2
        exact ⟨c :: rest, List.suffix_refl _, hm⟩
      | none =>
        rw [hm] at h
        have h2 : searchAux (some c) rest = some g := h
        rcases ih (some c) g h2 with ⟨l', hsuf, hmh⟩
        exact ⟨l', hsuf.trans (List.suffix_cons c rest), hmh⟩
    | some p =>
      simp only [searchAux] at h
      by_cases hw : isWordChar p = true
      · simp only [hw, Bool.not_true, Bool.false_eq_true, if_false] at h
        have h2 : searchAux (some c) rest = some g := h
        rcases ih (some c) g h2 with ⟨l', hsuf, hmh⟩
        exact ⟨l', hsuf.trans (List.suffix_cons c rest), hmh⟩
      · have hw2 : isWordChar p = false := by
          cases hb : isWordChar p
          · rfl
          · exact absurd hb hw
        simp only [hw2, Bool.not_false, if_true] at h
        cases hm : matchHere (c :: rest) with
        | some m =>
          rw [hm] at h
          have h2 : some m = some g := h
          simp only [Option.some.injEq] at h2
          subst h2
          exact ⟨c :: rest, List.suffix_refl _, hm⟩
        | none =>
          rw [hm] at h
          have h2 : searchAux (some c) rest = some g := h
          rcases ih (some c) g h2 with ⟨l', hsuf, hmh⟩
          exact ⟨l', hsuf.trans (List.suffix_cons c rest), hmh⟩

theorem removeSpaceHyphen_append (x y : List Char) :
    removeSpaceHyphen (x ++ y) = removeSpaceHyphen x ++ removeSpaceHyphen y := by
  simp [removeSpaceHyphen, List.filter_append]

theorem removeSpaceHyphen_digits (a : List Char)
    (h : ∀ c ∈ a, c.isDigit = true) : removeSpaceHyphen a = a := by
  unfold removeSpaceHyphen
  have h1 : a.filter (fun c => c != ' ') = a :=
    List.filter_eq_self.mpr (fun c hc => bne_space_of_digit (h c hc))
  rw [h1]
  exact List.filter_eq_self.mpr (fun c hc => bne_hyphen_of_digit (h c hc))

theorem removeSpaceHyphen_sep (s : Option Char)
    (h : ∀ x, s = some x → x = ' ' ∨ x = '-') :
    removeSpaceHyphen s.toList = [] := by
  cases s with
  | none => rfl
  | some x =>
    rcases h x rfl with rfl | rfl
    · decide
    · decide

theorem sep_space_or_hyphen {s : List Char} {u : Char}
    (hs : ∀ c ∈ s, isSpaceChar c = true → c = ' ')
    (hmem : u ∈ s) (hsep : isSepChar u = true) : u = ' ' ∨ u = '-' := by
  have hsep2 : (isSpaceChar u || u == '-') = true := by
    simpa [isSepChar] using hsep
  rcases (Bool.or_eq_true _ _).mp hsep2 with hsp | hhy
  · exact Or.inl (hs u hmem hsp)
  · exact Or.inr (eq_of_beq hhy)

theorem cleaned_of_search (s g : List Char)
    (hs : ∀ c ∈ s, isSpaceChar c = true → c = ' ')
    (h : searchPhone s = some g) :
    (∀ c ∈ removeSpaceHyphen g, c.isDigit = true) ∧
    ((removeSpaceHyphen g).length = 9 ∨ (removeSpaceHyphen g).length = 10 ∨
      (removeSpaceHyphen g).length = 11) := by
  rcases searchAux_spec none s g h with ⟨l', hsuf, hmh⟩
  rcases matchHere_spec l' g hmh with ⟨rest, hcand, hend⟩
  rcases hcand with hA | hB
  · obtain ⟨hl', x, y, z, s1, s2, hg, hx, hy, hz, hdx, hdy, hdz, he1, he2⟩ :=
      candA_spec l' g rest hA
    have hgs : ∀ c ∈ g, c ∈ s := by
      intro c hc
      apply hsuf.subset
      rw [hl']
      exact List.mem_append.mpr (Or.inl hc)
    have hsep1 : ∀ u, s1 = some u → u = ' ' ∨ u = '-' := by
      intro u hu
      refine sep_space_or_hyphen hs (hgs u ?_) (he1 u hu)
      rw [hg, hu]
      simp
    have hsep2 : ∀ u, s2 = some u → u = ' ' ∨ u = '-' := by
      intro u hu
      refine sep_space_or_hyphen hs (hgs u ?_) (he2 u hu)
      rw [hg, hu]
      simp
    have hclean : removeSpaceHyphen g = x ++ y ++ z := by
      rw [hg]
      rw [show x ++ s1.toList ++ y ++ s2.toList ++ z =
        x ++ (s1.toList ++ (y ++ (s2.toList ++ z))) by simp [List.append_assoc]]
      rw [removeSpaceHyphen_append, removeSpaceHyphen_append,
        removeSpaceHyphen_append, removeSpaceHyphen_append]
      rw [removeSpaceHyphen_digits x hdx, removeSpaceHyphen_digits y hdy,
        removeSpaceHyphen_digits z hdz, removeSpaceHyphen_sep s1 hsep1,
        removeSpaceHyphen_sep s2 hsep2]
      simp [List.append_assoc]
    rw [hclean]
    constructor
    · intro c hc
      rcases List.mem_append.mp hc with hc2 | hc2
      · rcases List.mem_append.mp hc2 with hc3 | hc3
        · exact hdx c hc3
        · exact hdy c hc3
      · exact hdz c hc2
    · simp only [List.length_append]
      rcases hx with h4 | h3 <;> rcases hz with g4 | g3 <;> omega
  · obtain ⟨hl', x, y, z, w, s1, s2, s3, hg, hx, hy, hz, hw, hdx, hdy, hdz,
      hdw, he1, he2, he3⟩ := candB_spec l' g rest hB
    have hgs : ∀ c ∈ g, c ∈ s := by
      intro c hc
      apply hsuf.subset
      rw [hl']
      exact List.mem_append.mpr (Or.inl hc)
    have hsep1 : ∀ u, s1 = some u → u = ' ' ∨ u = '-' := by
      intro u hu
      refine sep_space_or_hyphen hs (hgs u ?_) (he1 u hu)
      rw [hg, hu]
      simp
    have hsep2 : ∀ u, s2 = some u → u = ' ' ∨ u = '-' := by
      intro u hu
      refine sep_space_or_hyphen hs (hgs u ?_) (he2 u hu)
      rw [hg, hu]
      simp
    have hsep3 : ∀ u, s3 = some u → u = ' ' ∨ u = '-' := by
      intro u hu
      refine sep_space_or_hyphen hs (hgs u ?_) (he3 u hu)
      rw [hg, hu]
      simp
    have hclean : removeSpaceHyphen g = x ++ y ++ z ++ w := by
      rw [hg]
      rw [show x ++ s1.toList ++ y ++ s2.toList ++ z ++ s3.toList ++ w =
        x ++ (s1.toList ++ (y ++ (s2.toList ++ (z ++ (s3.toList ++ w)))))
        by simp [List.append_assoc]]
      rw [removeSpaceHyphen_append, removeSpaceHyphen_append,
        removeSpaceHyphen_append, removeSpaceHyphen_append,
        removeSpaceHyphen_append, removeSpaceHyphen_append]
      rw [removeSpaceHyphen_digits x hdx, removeSpaceHyphen_digits y hdy,
        removeSpaceHyphen_digits z hdz, removeSpaceHyphen_digits w hdw,
        removeSpaceHyphen_sep s1 hsep1, removeSpaceHyphen_sep s2 hsep2,
        removeSpaceHyphen_sep s3 hsep3]
      simp [List.append_assoc]
    rw [hclean]
    constructor
    · intro c hc
      rcases List.mem_append.mp hc with hc2 | hc2
      · rcases List.mem_append.mp hc2 with hc3 | hc3
        · rcases List.mem_append.mp hc3 with hc4 | hc4
          · exact hdx c hc4
          · exact hdy c hc4
        · exact hdz c hc3
      · exact hdw c hc2
    · simp only [List.length_append]
      omega

theorem isSpaceChar_of_digit {c : Char} (h : c.isDigit = true) :
    isSpaceChar c = false := by
  simp [isSpaceChar,
    beq_eq_false_of_digit ' ' h (by decide),
    beq_eq_false_of_digit '\t' h (by decide),
    beq_eq_false_of_digit '\n' h (by decide),
    beq_eq_false_of_digit '\r' h (by decide),
    beq_eq_false_of_digit '\x0b' h (by decide),
    beq_eq_false_of_digit '\x0c' h (by decide)]

theorem extract_shape10 (d0 d1 d2 d3 d4 d5 d6 d7 d8 d9 : Char)
    (h0 : d0.isDigit = true) (h1 : d1.isDigit = true) (h2 : d2.isDigit = true) (h3 : d3.isDigit = true) (h4 : d4.isDigit = true) (h5 : d5.isDigit = true) (h6 : d6.isDigit = true) (h7 : d7.isDigit = true) (h8 : d8.isDigit = true) (h9 : d9.isDigit = true) :
    extract_and_standardize_phone
        [d0, d1, d2, d3, ' ', d4, d5, d6, ' ', d7, d8, d9] =
      [d0, d1, d2, d3, ' ', d4, d5, d6, ' ', d7, d8, d9] := by
  have e0 := isSepChar_of_digit h0
  have w0 := isWordChar_of_digit h0
  have bs0 := bne_space_of_digit h0
  have bh0 := bne_hyphen_of_digit h0
  have e1 := isSepChar_of_digit h1
  have w1 := isWordChar_of_digit h1
  have bs1 := bne_space_of_digit h1
  have bh1 := bne_hyphen_of_digit h1
  have e2 := isSepChar_of_digit h2
  have w2 := isWordChar_of_digit h2
  have bs2 := bne_space_of_digit h2
  have bh2 := bne_hyphen_of_digit h2
  have e3 := isSepChar_of_digit h3
  have w3 := isWordChar_of_digit h3
  have bs3 := bne_space_of_digit h3
  have bh3 := bne_hyphen_of_digit h3
  have e4 := isSepChar_of_digit h4
  have w4 := isWordChar_of_digit h4
  have bs4 := bne_space_of_digit h4
  have bh4 := bne_hyphen_of_digit h4
  have e5 := isSepChar_of_digit h5
  have w5 := isWordChar_of_digit h5
  have bs5 := bne_space_of_digit h5
  have bh5 := bne_hyphen_of_digit h5
  have e6 := isSepChar_of_digit h6
  have w6 := isWordChar_of_digit h6
  have bs6 := bne_space_of_digit h6
  have bh6 := bne_hyphen_of_digit h6
  have e7 := isSepChar_of_digit h7
  have w7 := isWordChar_of_digit h7
  have bs7 := bne_space_of_digit h7
  have bh7 := bne_hyphen_of_digit h7
  have e8 := isSepChar_of_digit h8
  have w8 := isWordChar_of_digit h8
  have bs8 := bne_space_of_digit h8
  have bh8 := bne_hyphen_of_digit h8
  have e9 := isSepChar_of_digit h9
  have w9 := isWordChar_of_digit h9
  have bs9 := bne_space_of_digit h9
  have bh9 := bne_hyphen_of_digit h9
  simp [extract_and_standardize_phone, searchPhone, searchAux, matchHere,
    phoneCandidates, candA, candB, digitOptions, sepOptions, takeExactDigits,
    endBoundary, removeSpaceHyphen, formatCleaned,
    show isSepChar ' ' = true by decide,
    show (' ' : Char).isDigit = false by decide,
    show isWordChar ' ' = false by decide,
    h0, h1, h2, h3, h4, h5, h6, h7, h8, h9, e0, e1, e2, e3, e4, e5, e6, e7, e8, e9, w0, w1, w2, w3, w4, w5, w6, w7, w8, w9, bs0, bs1, bs2, bs3, bs4, bs5, bs6, bs7, bs8, bs9, bh0, bh1, bh2, bh3, bh4, bh5, bh6, bh7, bh8, bh9]

theorem extract_shape9 (d0 d1 d2 d3 d4 d5 d6 d7 d8 : Char)
    (h0 : d0.isDigit = true) (h1 : d1.isDigit = true) (h2 : d2.isDigit = true) (h3 : d3.isDigit = true) (h4 : d4.isDigit = true) (h5 : d5.isDigit = true) (h6 : d6.isDigit = true) (h7 : d7.isDigit = true) (h8 : d8.isDigit = true) :
    extract_and_standardize_phone
        [d0, d1, d2, ' ', d3, d4, d5, ' ', d6, d7, d8] =
      [d0, d1, d2, ' ', d3, d4, d5, ' ', d6, d7, d8] := by
  have e0 := isSepChar_of_digit h0
  have w0 := isWordChar_of_digit h0
  have bs0 := bne_space_of_digit h0
  have bh0 := bne_hyphen_of_digit h0
  have sp0 := isSpaceChar_of_digit h0
  have e1 := isSepChar_of_digit h1
  have w1 := isWordChar_of_digit h1
  have bs1 := bne_space_of_digit h1
  have bh1 := bne_hyphen_of_digit h1
  have sp1 := isSpaceChar_of_digit h1
  have e2 := isSepChar_of_digit h2
  have w2 := isWordChar_of_digit h2
  have bs2 := bne_space_of_digit h2
  have bh2 := bne_hyphen_of_digit h2
  have sp2 := isSpaceChar_of_digit h2
  have e3 := isSepChar_of_digit h3
  have w3 := isWordChar_of_digit h3
  have bs3 := bne_space_of_digit h3
  have bh3 := bne_hyphen_of_digit h3
  have sp3 := isSpaceChar_of_digit h3
  have e4 := isSepChar_of_digit h4
  have w4 := isWordChar_of_digit h4
  have bs4 := bne_space_of_digit h4
  have bh4 := bne_hyphen_of_digit h4
  have sp4 := isSpaceChar_of_digit h4
  have e5 := isSepChar_of_digit h5
  have w5 := isWordChar_of_digit h5
  have bs5 := bne_space_of_digit h5
  have bh5 := bne_hyphen_of_digit h5
  have sp5 := isSpaceChar_of_digit h5
  have e6 := isSepChar_of_digit h6
  have w6 := isWordChar_of_digit h6
  have bs6 := bne_space_of_digit h6
  have bh6 := bne_hyphen_of_digit h6
  have sp6 := isSpaceChar_of_digit h6
  have e7 := isSepChar_of_digit h7
  have w7 := isWordChar_of_digit h7
  have bs7 := bne_space_of_digit h7
  have bh7 := bne_hyphen_of_digit h7
  have sp7 := isSpaceChar_of_digit h7
  have e8 := isSepChar_of_digit h8
  have w8 := isWordChar_of_digit h8
  have bs8 := bne_space_of_digit h8
  have bh8 := bne_hyphen_of_digit h8
  have sp8 := isSpaceChar_of_digit h8
  simp [extract_and_standardize_phone, searchPhone, searchAux, matchHere,
    phoneCandidates, candA, candB, digitOptions, sepOptions, takeExactDigits,
    endBoundary, removeSpaceHyphen, formatCleaned, chunk3, stripChars,
    List.intercalate,
    show isSepChar ' ' = true by decide,
    show (' ' : Char).isDigit = false by decide,
    show isWordChar ' ' = false by decide,
    show isSpaceChar ' ' = true by decide,
    h0, h1, h2, h3, h4, h5, h6, h7, h8, e0, e1, e2, e3, e4, e5, e6, e7, e8, w0, w1, w2, w3, w4, w5, w6, w7, w8, bs0, bs1, bs2, bs3, bs4, bs5, bs6, bs7, bs8, bh0, bh1, bh2, bh3, bh4, bh5, bh6, bh7, bh8, sp0, sp1, sp2, sp3, sp4, sp5, sp6, sp7, sp8]

theorem extract_shape11 (d0 d1 d2 d3 d4 d5 d6 d7 d8 d9 d10 : Char)
    (h0 : d0.isDigit = true) (h1 : d1.isDigit = true) (h2 : d2.isDigit = true) (h3 : d3.isDigit = true) (h4 : d4.isDigit = true) (h5 : d5.isDigit = true) (h6 : d6.isDigit = true) (h7 : d7.isDigit = true) (h8 : d8.isDigit = true) (h9 : d9.isDigit = true) (h10 : d10.isDigit = true) :
    extract_and_standardize_phone
        [d0, d1, d2, d3, ' ', d4, d5, d6, ' ', d7, d8, d9, d10] =
      [d0, d1, d2, d3, ' ', d4, d5, d6, ' ', d7, d8, d9, d10] := by
  have e0 := isSepChar_of_digit h0
  have w0 := isWordChar_of_digit h0
  have bs0 := bne_space_of_digit h0
  have bh0 := bne_hyphen_of_digit h0
  have e1 := isSepChar_of_digit h1
  have w1 := isWordChar_of_digit h1
  have bs1 := bne_space_of_digit h1
  have bh1 := bne_hyphen_of_digit h1
  have e2 := isSepChar_of_digit h2
  have w2 := isWordChar_of_digit h2
  have bs2 := bne_space_of_digit h2
  have bh2 := bne_hyphen_of_digit h2
  have e3 := isSepChar_of_digit h3
  have w3 := isWordChar_of_digit h3
  have bs3 := bne_space_of_digit h3
  have bh3 := bne_hyphen_of_digit h3
  have e4 := isSepChar_of_digit h4
  have w4 := isWordChar_of_digit h4
  have bs4 := bne_space_of_digit h4
  have bh4 := bne_hyphen_of_digit h4
  have e5 := isSepChar_of_digit h5
  have w5 := isWordChar_of_digit h5
  have bs5 := bne_space_of_digit h5
  have bh5 := bne_hyphen_of_digit h5
  have e6 := isSepChar_of_digit h6
  have w6 := isWordChar_of_digit h6
  have bs6 := bne_space_of_digit h6
  have bh6 := bne_hyphen_of_digit h6
  have e7 := isSepChar_of_digit h7
  have w7 := isWordChar_of_digit h7
  have bs7 := bne_space_of_digit h7
  have bh7 := bne_hyphen_of_digit h7
  have e8 := isSepChar_of_digit h8
  have w8 := isWordChar_of_digit h8
  have bs8 := bne_space_of_digit h8
  have bh8 := bne_hyphen_of_digit h8
  have e9 := isSepChar_of_digit h9
  have w9 := isWordChar_of_digit h9
  have bs9 := bne_space_of_digit h9
  have bh9 := bne_hyphen_of_digit h9
  have e10 := isSepChar_of_digit h10
  have w10 := isWordChar_of_digit h10
  have bs10 := bne_space_of_digit h10
  have bh10 := bne_hyphen_of_digit h10
  simp [extract_and_standardize_phone, searchPhone, searchAux, matchHere,
    phoneCandidates, candA, candB, digitOptions, sepOptions, takeExactDigits,
    endBoundary, removeSpaceHyphen, formatCleaned, chunk3, stripChars,
    List.intercalate,
    show isSepChar ' ' = true by decide,
    show (' ' : Char).isDigit = false by decide,
    show isWordChar ' ' = false by decide,
    show isSpaceChar ' ' = true by decide,
    h0, h1, h2, h3, h4, h5, h6, h7, h8, h9, h10, e0, e1, e2, e3, e4, e5, e6, e7, e8, e9, e10, w0, w1, w2, w3, w4, w5, w6, w7, w8, w9, w10, bs0, bs1, bs2, bs3, bs4, bs5, bs6, bs7, bs8, bs9, bs10, bh0, bh1, bh2, bh3, bh4, bh5, bh6, bh7, bh8, bh9, bh10]

theorem extract_formatCleaned_fix (d : List Char)
    (hd : ∀ c ∈ d, c.isDigit = true)
    (hl : d.length = 9 ∨ d.length = 10 ∨ d.length = 11) :
    extract_and_standardize_phone (formatCleaned d) = formatCleaned d := by
  rcases hl with h | h | h
  ·
    cases d with
    | nil => simp only [List.length_nil] at h; omega
    | cons d0 t0 =>
    cases t0 with
    | nil => simp only [List.length_cons, List.length_nil] at h; omega
    | cons d1 t1 =>
    cases t1 with
    | nil => simp only [List.length_cons, List.length_nil] at h; omega
    | cons d2 t2 =>
    cases t2 with
    | nil => simp only [List.length_cons, List.length_nil] at h; omega
    | cons d3 t3 =>
    cases t3 with
    | nil => simp only [List.length_cons, List.length_nil] at h; omega
    | cons d4 t4 =>
    cases t4 with
    | nil => simp only [List.length_cons, List.length_nil] at h; omega
    | cons d5 t5 =>
    cases t5 with
    | nil => simp only [List.length_cons, List.length_nil] at h; omega
    | cons d6 t6 =>
    cases t6 with
    | nil => simp only [List.length_cons, List.length_nil] at h; omega
    | cons d7 t7 =>
    cases t7 with
    | nil => simp only [List.length_cons, List.length_nil] at h; omega
    | cons d8 t8 =>
    cases t8 with
    | cons dx tx =>
      simp only [List.length_cons, List.length_nil] at h
      omega
    | nil =>
      have sp0 := isSpaceChar_of_digit (hd d0 (by simp))
      have sp1 := isSpaceChar_of_digit (hd d1 (by simp))
      have sp2 := isSpaceChar_of_digit (hd d2 (by simp))
      have sp3 := isSpaceChar_of_digit (hd d3 (by simp))
      have sp4 := isSpaceChar_of_digit (hd d4 (by simp))
      have sp5 := isSpaceChar_of_digit (hd d5 (by simp))
      have sp6 := isSpaceChar_of_digit (hd d6 (by simp))
      have sp7 := isSpaceChar_of_digit (hd d7 (by simp))
      have sp8 := isSpaceChar_of_digit (hd d8 (by simp))
      have hf : formatCleaned [d0, d1, d2, d3, d4, d5, d6, d7, d8] = [d0, d1, d2, ' ', d3, d4, d5, ' ', d6, d7, d8] := by
        simp [formatCleaned, chunk3, stripChars, List.intercalate,
          show isSpaceChar ' ' = true by decide, sp0, sp1, sp2, sp3, sp4, sp5, sp6, sp7, sp8]
      rw [hf]
      exact extract_shape9 d0 d1 d2 d3 d4 d5 d6 d7 d8
        (hd d0 (by simp)) (hd d1 (by simp)) (hd d2 (by simp)) (hd d3 (by simp)) (hd d4 (by simp)) (hd d5 (by simp)) (hd d6 (by simp)) (hd d7 (by simp)) (hd d8 (by simp))
  ·
    cases d with
    | nil => simp only [List.length_nil] at h; omega
    | cons d0 t0 =>
    cases t0 with
    | nil => simp only [List.length_cons, List.length_nil] at h; omega
    | cons d1 t1 =>
    cases t1 with
    | nil => simp only [List.length_cons, List.length_nil] at h; omega
    | cons d2 t2 =>
    cases t2 with
    | nil => simp only [List.length_cons, List.length_nil] at h; omega
    | cons d3 t3 =>
    cases t3 with
    | nil => simp only [List.length_cons, List.length_nil] at h; omega
    | cons d4 t4 =>
    cases t4 with
    | nil => simp only [List.length_cons, List.length_nil] at h; omega
    | cons d5 t5 =>
    cases t5 with
    | nil => simp only [List.length_cons, List.length_nil] at h; omega
    | cons d6 t6 =>
    cases t6 with
    | nil => simp only [List.length_cons, List.length_nil] at h; omega
    | cons d7 t7 =>
    cases t7 with
    | nil => simp only [List.length_cons, List.length_nil] at h; omega
    | cons d8 t8 =>
    cases t8 with
    | nil => simp only [List.length_cons, List.length_nil] at h; omega
    | cons d9 t9 =>
    cases t9 with
    | cons dx tx =>
      simp only [List.length_cons, List.length_nil] at h
      omega
    | nil =>
      have hf : formatCleaned [d0, d1, d2, d3, d4, d5, d6, d7, d8, d9] = [d0, d1, d2, d3, ' ', d4, d5, d6, ' ', d7, d8, d9] := rfl
      rw [hf]
      exact extract_shape10 d0 d1 d2 d3 d4 d5 d6 d7 d8 d9
        (hd d0 (by simp)) (hd d1 (by simp)) (hd d2 (by simp)) (hd d3 (by simp)) (hd d4 (by simp)) (hd d5 (by simp)) (hd d6 (by simp)) (hd d7 (by simp)) (hd d8 (by simp)) (hd d9 (by simp))
  ·
    cases d with
    | nil => simp only [List.length_nil] at h; omega
    | cons d0 t0 =>
    cases t0 with
    | nil => simp only [List.length_cons, List.length_nil] at h; omega
    | cons d1 t1 =>
    cases t1 with
    | nil => simp only [List.length_cons, List.length_nil] at h; omega
    | cons d2 t2 =>
    cases t2 with
    | nil => simp only [List.length_cons, List.length_nil] at h; omega
    | cons d3 t3 =>
    cases t3 with
    | nil => simp only [List.length_cons, List.length_nil] at h; omega
    | cons d4 t4 =>
    cases t4 with
    | nil => simp only [List.length_cons, List.length_nil] at h; omega
    | cons d5 t5 =>
    cases t5 with
    | nil => simp only [List.length_cons, List.length_nil] at h; omega
    | cons d6 t6 =>
    cases t6 with
    | nil => simp only [List.length_cons, List.length_nil] at h; omega
    | cons d7 t7 =>
    cases t7 with
    | nil => simp only [List.length_cons, List.length_nil] at h; omega
    | cons d8 t8 =>
    cases t8 with
    | nil => simp only [List.length_cons, List.length_nil] at h; omega
    | cons d9 t9 =>
    cases t9 with
    | nil => simp only [List.length_cons, List.length_nil] at h; omega
    | cons d10 t10 =>
    cases t10 with
    | cons dx tx =>
      simp only [List.length_cons, List.length_nil] at h
      omega
    | nil =>
      have hf : formatCleaned [d0, d1, d2, d3, d4, d5, d6, d7, d8, d9, d10] = [d0, d1, d2, d3, ' ', d4, d5, d6, ' ', d7, d8, d9, d10] := rfl
      rw [hf]
      exact extract_shape11 d0 d1 d2 d3 d4 d5 d6 d7 d8 d9 d10
        (hd d0 (by simp)) (hd d1 (by simp)) (hd d2 (by simp)) (hd d3 (by simp)) (hd d4 (by simp)) (hd d5 (by simp)) (hd d6 (by simp)) (hd d7 (by simp)) (hd d8 (by simp)) (hd d9 (by simp)) (hd d10 (by simp))

/-- C9 amended: on every string whose whitespace is limited to the plain space
character (in particular every string whose number separators are spaces or
hyphens), `extract_and_standardize_phone` is idempotent, including the
`NOT_FOUND` sentinel case.  Idempotence fails in general: a number with tab
separators (see the counterexample) canonicalizes to a string containing tabs
that the cleaning step never strips, whose second extraction is `NOT_FOUND`. -/
theorem C9_amended_idempotent_on_space_separated (s : List Char)
    (hs : ∀ c ∈ s, isSpaceChar c = true → c = ' ') :
    extract_and_standardize_phone (extract_and_standardize_phone s) =
      extract_and_standardize_phone s := by
  cases h : searchPhone s with
  | none =>
    have hres : extract_and_standardize_phone s = "NOT_FOUND".toList := by
      simp [extract_and_standardize_phone, h]
    rw [hres]
    decide
  | some g =>
    have hres : extract_and_standardize_phone s =
        formatCleaned (removeSpaceHyphen g) := by
      simp [extract_and_standardize_phone, h]
    rw [hres]
    obtain ⟨hd, hl⟩ := cleaned_of_search s g hs h
    exact extract_formatCleaned_fix (removeSpaceHyphen g) hd hl

/-- C9 witness: the amended idempotence applied at concrete inputs — a
space-separated number, a hyphen-separated one, and a no-match string. -/
theorem C9_witness :
    extract_and_standardize_phone (extract_and_standardize_phone
      "call 0300 200 3887 now".toList) =
      extract_and_standardize_phone "call 0300 200 3887 now".toList ∧
    extract_and_standardize_phone (extract_and_standardize_phone
      "123-456-789".toList) =
      extract_and_standardize_phone "123-456-789".toList ∧
    extract_and_standardize_phone (extract_and_standardize_phone
      "no phone".toList) =
      extract_and_standardize_phone "no phone".toList :=
  ⟨C9_amended_idempotent_on_space_separated "call 0300 200 3887 now".toList
      (by decide),
   C9_amended_idempotent_on_space_separated "123-456-789".toList (by decide),
   C9_amended_idempotent_on_space_separated "no phone".toList (by decide)⟩

/-- C9 counterexample: the regex accepts any whitespace separator but the
cleaning step only strips spaces and hyphens, so a tab-separated number
canonicalizes to `"0300 \t20 0\t3887"`, whose re-extraction is `NOT_FOUND`:
`canonicalize (canonicalize s) ≠ canonicalize s`. -/
theorem C9_counterexample :
    extract_and_standardize_phone "0300\t200\t3887".toList =
      "0300 \t20 0\t3887".toList ∧
    extract_and_standardize_phone (extract_and_standardize_phone
      "0300\t200\t3887".toList) = "NOT_FOUND".toList ∧
    extract_and_standardize_phone (extract_and_standardize_phone
      "0300\t200\t3887".toList) ≠
      extract_and_standardize_phone "0300\t200\t3887".toList := by
  refine ⟨by decide, by decide, by decide⟩

end OnwardJourney
